import Mathlib

/-!
# qpdf object handles: narrowing and the stream view

A shallow embedding of `libqpdf/qpdf/QPDFObjectHandle_private.hh`.

Objects live in a store addressed by keys; a `shared_ptr<QPDFObject>` is an
optional key (`none` is the null pointer).  Member functions run in a monad
that threads the store and can raise a C++ exception; after an exception the
store is still there, so the store is returned next to the outcome.
-/

namespace qpdf

/-- Modelled from the spec: the kind tags of the Object variant (the enum
`qpdf_object_type_e` is declared in `qpdf/Constants.h`, outside the shown
sources).  The spec lists the kinds Null, Boolean, Integer, Real, String, Name,
Array, Dictionary, Stream and Reference; `ot_uninitialized` is the tag the
source returns for a handle that holds no object. -/
inductive qpdf_object_type_e
  | ot_uninitialized
  | ot_null
  | ot_boolean
  | ot_integer
  | ot_real
  | ot_string
  | ot_name
  | ot_array
  | ot_dictionary
  | ot_stream
  | ot_reference
  deriving DecidableEq, Repr

open qpdf_object_type_e

/-- A key of the object store: what a non-null `shared_ptr<QPDFObject>` designates. -/
abbrev Ptr := Nat

/-- The common base of `QPDFObjectHandle`, `Array`, `Dictionary` and `Stream`:
its only data member is `obj`, a `shared_ptr<QPDFObject>`. -/
structure BaseHandle where
  obj : Option Ptr
  deriving DecidableEq, Repr

/-- The class `QPDFObjectHandle` (a `BaseHandle`). -/
abbrev QPDFObjectHandle := BaseHandle

/-- The view `qpdf::Array`, built by `Array(obj)`. -/
structure Array where
  obj : Option Ptr
  deriving DecidableEq, Repr

/-- The view `qpdf::Dictionary`, built by `Dictionary(obj)`. -/
structure Dictionary where
  obj : Option Ptr
  deriving DecidableEq, Repr

/-- The view `qpdf::Stream`, built by `Stream(obj)`. -/
structure Stream where
  obj : Option Ptr
  deriving DecidableEq, Repr

/-- A `shared_ptr<Buffer>` that is not null: the bytes it holds. -/
structure Buffer where
  bytes : List Nat
  deriving DecidableEq, Repr

/-- A `shared_ptr<QPDFObjectHandle::StreamDataProvider>` that is not null,
identified by a number. -/
structure StreamDataProvider where
  id : Nat
  deriving DecidableEq, Repr

/-- A `shared_ptr<QPDFObjectHandle::TokenFilter>`, identified by a number. -/
structure TokenFilter where
  id : Nat
  deriving DecidableEq, Repr

/-- The data members of `QPDF_Stream` that the stream view reads and writes
(the struct itself is declared in `QPDF_Stream.hh`). -/
structure QPDF_Stream where
  stream_dict : QPDFObjectHandle
  filter_on_write : Bool
  length : Nat
  stream_data : Option Buffer
  stream_provider : Option StreamDataProvider
  token_filters : List TokenFilter
  deriving DecidableEq, Repr

/-- Modelled from the spec: the tagged variant held by an Object (section 3 of
the spec); containers hold handles, a Reference names the key of its target in
the owning document's object table. -/
inductive Value
  | null
  | boolean (b : Bool)
  | integer (i : Int)
  | real (s : String)
  | string (s : String)
  | name (s : String)
  | array (items : List QPDFObjectHandle)
  | dictionary (items : List (String × QPDFObjectHandle))
  | stream (s : QPDF_Stream)
  | reference (target : Ptr)
  deriving DecidableEq, Repr

/-- The tag of a variant, unresolved. -/
def Value.getTypeCode : Value → qpdf_object_type_e
  | .null => ot_null
  | .boolean _ => ot_boolean
  | .integer _ => ot_integer
  | .real _ => ot_real
  | .string _ => ot_string
  | .name _ => ot_name
  | .array _ => ot_array
  | .dictionary _ => ot_dictionary
  | .stream _ => ot_stream
  | .reference _ => ot_reference

/-- A `QPDFObject`: the variant and the object description. -/
structure QPDFObject where
  value : Value
  description : Option String
  deriving DecidableEq, Repr

/-- The object store (the document's object table): every key designates an object. -/
abbrev Heap := Ptr → QPDFObject

/-- What a member function can throw. -/
inductive Failure
  /-- The exception of `assertType`: the requested kind and the kind found. -/
  | type_mismatch (type_name : String) (found : qpdf_object_type_e)
  /-- A `std::runtime_error` with the given text. -/
  | runtime_error (what : String)
  deriving DecidableEq, Repr

/-- Member functions: read and write the store, or throw. -/
abbrev M := ExceptT Failure (StateM Heap)

/-- Run a member function from a store: its outcome and the store it leaves. -/
def M.exec {α : Type} (x : M α) (σ : Heap) : Except Failure α × Heap :=
  (ExceptT.run x).run σ

/-- The flag set `qpdf::typed`, an 8-bit enum used as a bit mask. -/
abbrev typed := Nat

/-- Modelled from the spec: the flag `any` of the mode flag set, tested in the
source as `qpdf::any_flag` (the enum is declared outside the shown sources). -/
def any_flag : typed := 1

/-- Modelled from the spec: the flag `optional` of the mode flag set. -/
def optional : typed := 2

/-- Modelled from the spec: the flag `error` of the mode flag set. -/
def error : typed := 4

/-- The test `options & flag` of the source, as a condition. -/
def typed.has (options flag : typed) : Bool :=
  options &&& flag != 0

/-- Modelled from the spec: resolution of a Reference consults the object table
and yields the real Object; any other object is its own resolution. -/
def resolved (σ : Heap) (p : Ptr) : Ptr :=
  match (σ p).value with
  | .reference target => target
  | _ => p

/-- Modelled from the spec: `QPDFObject::getResolvedTypeCode` (declared in
`QPDFObject_private.hh`), the kind of the resolved object. -/
def getResolvedTypeCode (p : Ptr) : M qpdf_object_type_e := do
  let σ ← get
  pure (σ (resolved σ p)).value.getTypeCode

/-- The member `BaseHandle::type_code`. -/
def type_code (this : BaseHandle) : M qpdf_object_type_e :=
  match this.obj with
  | some p => getResolvedTypeCode p
  | none => pure ot_uninitialized

/-- Modelled from the spec: `QPDFObjectHandle::assertType` (its definition
is in `QPDFObjectHandle.cc`); when `istype` is false it raises the TypeMismatch
failure, naming the requested kind and the kind of the handle. -/
def assertType (this : QPDFObjectHandle) (type_name : String) (istype : Bool) : M Unit := do
  if !istype then
    throw (Failure.type_mismatch type_name (← type_code this))

/-- The member `QPDFObjectHandle::as_array`. -/
def as_array (this : QPDFObjectHandle) (options : typed) : M Array := do
  if options.has error then
    assertType this "array" false
  if ← (pure (options.has any_flag) <||> (do pure ((← type_code this) == ot_array)) <||>
      (pure (options.has optional) <&&> (do pure ((← type_code this) == ot_null)))) then
    return Array.mk this.obj
  return Array.mk none

/-- The member `QPDFObjectHandle::as_dictionary`. -/
def as_dictionary (this : QPDFObjectHandle) (options : typed) : M Dictionary := do
  if ← (pure (options.has any_flag) <||> (do pure ((← type_code this) == ot_dictionary)) <||>
      (pure (options.has optional) <&&> (do pure ((← type_code this) == ot_null)))) then
    return Dictionary.mk this.obj
  if options.has error then
    assertType this "dictionary" false
  return Dictionary.mk none

/-- The member `QPDFObjectHandle::as_stream`. -/
def as_stream (this : QPDFObjectHandle) (options : typed) : M Stream := do
  if ← (pure (options.has any_flag) <||> (do pure ((← type_code this) == ot_stream)) <||>
      (pure (options.has optional) <&&> (do pure ((← type_code this) == ot_null)))) then
    return Stream.mk this.obj
  if options.has error then
    assertType this "stream" false
  return Stream.mk none

/-- Modelled from the spec: `QPDFObject::as<QPDF_Stream>` (declared in
`QPDFObject_private.hh`).  The stream payload of the object, reached through
resolution, or a null pointer when the resolved object is not a stream.  A
`QPDF_Stream*` is the key of the object that holds the payload. -/
def QPDFObject.as_QPDF_Stream (p : Ptr) : M (Option Ptr) := do
  let σ ← get
  match (σ (resolved σ p)).value with
  | .stream _ => pure (some (resolved σ p))
  | _ => pure none

/-- The payload a `QPDF_Stream*` points at.  `Stream::stream` only hands out keys
of stream objects; at any other key the read is of no consequence. -/
def QPDF_Stream.at (σ : Heap) (s : Ptr) : QPDF_Stream :=
  match (σ s).value with
  | .stream st => st
  | _ => ⟨⟨none⟩, false, 0, none, none, []⟩

/-- A read `s->field`. -/
def QPDF_Stream.load (s : Ptr) : M QPDF_Stream := do
  pure (QPDF_Stream.at (← get) s)

/-- The store after the payload at key `s` has been overwritten with a stream
payload: the object keeps its key and its description. -/
def Heap.withStream (σ : Heap) (s : Ptr) (st : QPDF_Stream) : Heap :=
  Function.update σ s { σ s with value := .stream st }

/-- A write `s->field = ...`: the payload is replaced in place. -/
def QPDF_Stream.store (s : Ptr) (st : QPDF_Stream) : M Unit :=
  modify fun σ => σ.withStream s st

/-- The private member `Stream::stream`. -/
def Stream.stream (this : Stream) : M Ptr := do
  if let some obj := this.obj then
    if let some s ← QPDFObject.as_QPDF_Stream obj then
      return s
  throw (Failure.runtime_error "operation for stream attempted on object of type dictionary")

/-- The member `Stream::getDict`. -/
def Stream.getDict (this : Stream) : M QPDFObjectHandle := do
  return (← QPDF_Stream.load (← this.stream)).stream_dict

/-- The member `Stream::isDataModified`. -/
def Stream.isDataModified (this : Stream) : M Bool := do
  return !(← QPDF_Stream.load (← this.stream)).token_filters.isEmpty

/-- The member `Stream::setFilterOnWrite`. -/
def Stream.setFilterOnWrite (this : Stream) (val : Bool) : M Unit := do
  let s ← this.stream
  QPDF_Stream.store s { (← QPDF_Stream.load s) with filter_on_write := val }

/-- The member `Stream::getFilterOnWrite`. -/
def Stream.getFilterOnWrite (this : Stream) : M Bool := do
  return (← QPDF_Stream.load (← this.stream)).filter_on_write

/-- The member `Stream::getLength`. -/
def Stream.getLength (this : Stream) : M Nat := do
  return (← QPDF_Stream.load (← this.stream)).length

/-- The member `Stream::getStreamDataBuffer`. -/
def Stream.getStreamDataBuffer (this : Stream) : M (Option Buffer) := do
  return (← QPDF_Stream.load (← this.stream)).stream_data

/-- The member `Stream::getStreamDataProvider`. -/
def Stream.getStreamDataProvider (this : Stream) : M (Option StreamDataProvider) := do
  return (← QPDF_Stream.load (← this.stream)).stream_provider

/-- The member `Stream::addTokenFilter`: `emplace_back` on the filter vector. -/
def Stream.addTokenFilter (this : Stream) (token_filter : TokenFilter) : M Unit := do
  let s ← this.stream
  let st ← QPDF_Stream.load s
  QPDF_Stream.store s { st with token_filters := st.token_filters ++ [token_filter] }

/-- The store after the object at key `d` has been given the description `descr`:
its variant is untouched. -/
def Heap.withDescription (σ : Heap) (d : Ptr) (descr : Option String) : Heap :=
  Function.update σ d { σ d with description := descr }

/-- Modelled from the spec: `QPDF_Stream::setDictDescription` (its definition is in
`QPDF_Stream.cc`).  The spec gives `replaceDict` no effect on the stream besides
the swap of the dictionary, so the call touches diagnostic state only: it labels
the object that the stream dictionary handle designates.  The label it writes is
the parameter `describe`, computed from the store and the stream. -/
def QPDF_Stream.setDictDescription (describe : Heap → Ptr → Option String) (s : Ptr) : M Unit := do
  match (← QPDF_Stream.load s).stream_dict.obj with
  | some d => modify fun σ => σ.withDescription d (describe σ s)
  | none => pure ()

/-- The member `Stream::replaceDict`. -/
def Stream.replaceDict (describe : Heap → Ptr → Option String) (this : Stream)
    (new_dict : QPDFObjectHandle) : M Unit := do
  let s ← this.stream
  QPDF_Stream.store s { (← QPDF_Stream.load s) with stream_dict := new_dict }
  QPDF_Stream.setDictDescription describe s

/-- Insert or overwrite one entry of a dictionary. -/
def replaceEntry (key : String) (value : QPDFObjectHandle) :
    List (String × QPDFObjectHandle) → List (String × QPDFObjectHandle)
  | [] => [(key, value)]
  | (k, v) :: rest => if k = key then (key, value) :: rest else (k, v) :: replaceEntry key value rest

/-- The store after the entries `/Filter` and `/DecodeParms` of the dictionary
that `d` resolves to have been rewritten; when `d` does not resolve to a
dictionary there is nothing to rewrite. -/
def Heap.withFilterEntries (σ : Heap) (d : Ptr) (filter decode_parms : QPDFObjectHandle) : Heap :=
  match (σ (resolved σ d)).value with
  | .dictionary items =>
    Function.update σ (resolved σ d)
      { σ (resolved σ d) with
        value := .dictionary
          (replaceEntry "/DecodeParms" decode_parms (replaceEntry "/Filter" filter items)) }
  | _ => σ

/-- Modelled from the spec: `Stream::replaceFilterData` (declared in the header,
with its definition in `QPDF_Stream.cc`): "rewrite the stream dictionary's `/Filter` and
`/DecodeParms` entries to describe the new encoding and record the declared
length".  The entries are rewritten in the dictionary object that the stream's
dictionary handle resolves to; the length is recorded in the stream. -/
def Stream.replaceFilterData (this : Stream) (filter decode_parms : QPDFObjectHandle)
    (length : Nat) : M Unit := do
  let s ← this.stream
  QPDF_Stream.store s { (← QPDF_Stream.load s) with length := length }
  match (← QPDF_Stream.load s).stream_dict.obj with
  | some d => modify fun σ => σ.withFilterEntries d filter decode_parms
  | none => pure ()

/-- Modelled from the spec: `Stream::replaceStreamData` with a buffer (declared in
the header, its definition is in `QPDF_Stream.cc`): the transition to `BufferReplaced`,
"setting one clears the other", then the rewrite of the dictionary; the declared
length is the size of the buffer. -/
def Stream.replaceStreamData_buffer (this : Stream) (data : Buffer)
    (filter decode_parms : QPDFObjectHandle) : M Unit := do
  let s ← this.stream
  QPDF_Stream.store s { (← QPDF_Stream.load s) with stream_data := some data, stream_provider := none }
  this.replaceFilterData filter decode_parms data.bytes.length

/-- Modelled from the spec: `Stream::replaceStreamData` with a provider (declared
in the header, its definition is in `QPDF_Stream.cc`): the transition to `ProviderReplaced`,
"setting one clears the other", then the rewrite of the dictionary; a provider
declares no length, 0 is recorded. -/
def Stream.replaceStreamData_provider (this : Stream) (provider : StreamDataProvider)
    (filter decode_parms : QPDFObjectHandle) : M Unit := do
  let s ← this.stream
  QPDF_Stream.store s { (← QPDF_Stream.load s) with stream_provider := some provider, stream_data := none }
  this.replaceFilterData filter decode_parms 0

/-- A call of one of the members of the stream view that write to a stream. -/
inductive StreamCall
  | replaceStreamData_buffer (this : Stream) (data : Buffer)
      (filter decode_parms : QPDFObjectHandle)
  | replaceStreamData_provider (this : Stream) (provider : StreamDataProvider)
      (filter decode_parms : QPDFObjectHandle)
  | addTokenFilter (this : Stream) (token_filter : TokenFilter)
  | setFilterOnWrite (this : Stream) (val : Bool)
  | replaceDict (this : Stream) (new_dict : QPDFObjectHandle)

/-- The view a call is made on. -/
def StreamCall.this : StreamCall → Stream
  | .replaceStreamData_buffer this _ _ _ => this
  | .replaceStreamData_provider this _ _ _ => this
  | .addTokenFilter this _ => this
  | .setFilterOnWrite this _ => this
  | .replaceDict this _ => this

/-- The member function a call stands for. -/
def StreamCall.run (describe : Heap → Ptr → Option String) : StreamCall → M Unit
  | .replaceStreamData_buffer this data filter decode_parms =>
    this.replaceStreamData_buffer data filter decode_parms
  | .replaceStreamData_provider this provider filter decode_parms =>
    this.replaceStreamData_provider provider filter decode_parms
  | .addTokenFilter this token_filter => this.addTokenFilter token_filter
  | .setFilterOnWrite this val => this.setFilterOnWrite val
  | .replaceDict this new_dict => this.replaceDict describe new_dict

/-- The store left by a sequence of calls made one after the other; a call that
throws leaves the store as it was when it threw, and the caller carries on. -/
def runCalls (describe : Heap → Ptr → Option String) : List StreamCall → Heap → Heap
  | [], σ => σ
  | c :: cs, σ => runCalls describe cs ((c.run describe).exec σ).2

/-- The data-source state of every stream in the store is single-valued: no stream
has a replacement buffer and a replacement provider at the same time. -/
def single_valued (σ : Heap) : Prop :=
  ∀ q st, (σ q).value = .stream st → st.stream_data = none ∨ st.stream_provider = none

/-- The resolved kind of a handle in a store, as a plain function. -/
def kindOf (σ : Heap) (this : BaseHandle) : qpdf_object_type_e :=
  match this.obj with
  | some p => (σ (resolved σ p)).value.getTypeCode
  | none => ot_uninitialized

/-- The store `replaceDict` leaves. -/
def afterReplaceDict (describe : Heap → Ptr → Option String) (σ : Heap) (s : Ptr)
    (st : QPDF_Stream) (new_dict : QPDFObjectHandle) : Heap :=
  match new_dict.obj with
  | some d =>
    (σ.withStream s { st with stream_dict := new_dict }).withDescription d
      (describe (σ.withStream s { st with stream_dict := new_dict }) s)
  | none => σ.withStream s { st with stream_dict := new_dict }

/-- The store `replaceFilterData` leaves. -/
def afterReplaceFilterData (σ : Heap) (s : Ptr) (st : QPDF_Stream)
    (filter decode_parms : QPDFObjectHandle) (length : Nat) : Heap :=
  match st.stream_dict.obj with
  | some d => (σ.withStream s { st with length := length }).withFilterEntries d filter decode_parms
  | none => σ.withStream s { st with length := length }

/-- The store `replaceStreamData` leaves, for the data-source fields given. -/
def afterReplaceStreamData (σ : Heap) (s : Ptr) (st : QPDF_Stream)
    (data : Option Buffer) (provider : Option StreamDataProvider)
    (filter decode_parms : QPDFObjectHandle) (length : Nat) : Heap :=
  afterReplaceFilterData
    (σ.withStream s { st with stream_data := data, stream_provider := provider }) s
    { st with stream_data := data, stream_provider := provider } filter decode_parms length

/-- A small store used for concrete evaluations: key 0 an array, 1 a dictionary,
2 a stream with nothing attached, 3 a reference to 1, 4 a stream with two token
filters and a replacement buffer, every other key Null. -/
def exampleHeap : Heap := fun p =>
  match p with
  | 0 => ⟨.array [], none⟩
  | 1 => ⟨.dictionary [], none⟩
  | 2 => ⟨.stream ⟨⟨some 1⟩, false, 0, none, none, []⟩, none⟩
  | 3 => ⟨.reference 1, none⟩
  | 4 => ⟨.stream ⟨⟨some 1⟩, true, 3, some ⟨[37, 80, 68]⟩, none, [⟨10⟩, ⟨11⟩]⟩, none⟩
  | _ => ⟨.null, none⟩

end qpdf

/-! # Command-line arguments of a job

A shallow embedding of the handlers of `libqpdf/QPDFJob_argv.cc` that the
claims are about.  A handler is a member function of `ArgParser`: it reads and
writes the parser object and can throw.
-/

/-- Modelled from the spec: the decode level, "an ordered, strictly increasing
permission tier `none < generalized < specialized < all`" (the enum
`qpdf_stream_decode_level_e` is declared in `qpdf/Constants.h`). -/
inductive qpdf_stream_decode_level_e
  | qpdf_dl_none
  | qpdf_dl_generalized
  | qpdf_dl_specialized
  | qpdf_dl_all
  deriving DecidableEq, Repr

/-- The rank of a tier in the order of the spec. -/
def qpdf_stream_decode_level_e.rank : qpdf_stream_decode_level_e → Nat
  | .qpdf_dl_none => 0
  | .qpdf_dl_generalized => 1
  | .qpdf_dl_specialized => 2
  | .qpdf_dl_all => 3

/-- The value built by `QPDFJob::PageSpec(file, password, range)`; a null
password is `none`. -/
structure QPDFJob.PageSpec where
  filename : String
  password : Option String
  range : String
  deriving DecidableEq, Repr

/-- The value built by `QPDFJob::RotationSpec(angle, relative)`. -/
structure QPDFJob.RotationSpec where
  angle : Int
  relative : Bool
  deriving DecidableEq, Repr

/-- The members of `QPDFJob` that the handlers below assign (the class is declared
in `qpdf/QPDFJob.hh`); `rotations` is a `std::map` from range to rotation. -/
structure QPDFJob where
  user_password : String
  owner_password : String
  keylen : Int
  use_aes : Bool
  decode_level_set : Bool
  decode_level : qpdf_stream_decode_level_e
  page_specs : List QPDFJob.PageSpec
  rotations : String → Option QPDFJob.RotationSpec

/-- The option tables the handlers select (the constants `O_...` are declared in
`qpdf/auto_job_decl.hh`); `O_MAIN` stands for the table in force at the start. -/
inductive OptionTable
  | O_MAIN
  | O_ENCRYPTION
  | O_40_BIT_ENCRYPTION
  | O_128_BIT_ENCRYPTION
  | O_256_BIT_ENCRYPTION
  | O_PAGES
  deriving DecidableEq, Repr

/-- What the handlers use of `QPDFArgParser` (declared in `qpdf/QPDFArgParser.hh`):
`isCompleting()`, `argsLeft()`, the completions inserted so far and the option
table selected. -/
structure QPDFArgParser where
  completing : Bool
  args_left : Nat
  completions : List String
  option_table : OptionTable
  deriving DecidableEq, Repr

/-- The data members of `ArgParser` that the handlers below use. -/
structure ArgParser where
  ap : QPDFArgParser
  o : QPDFJob
  accumulated_args : List String
  pages_password : Option String

/-- What a handler can throw. -/
inductive Exception
  /-- The usage error raised by `QPDFArgParser::usage`. -/
  | Usage (message : String)
  /-- A `std::runtime_error` with the given text. -/
  | runtime_error (what : String)
  /-- The `std::out_of_range` of `vector::at`. -/
  | out_of_range
  deriving DecidableEq, Repr

/-- Handlers: read and write the parser object, or throw. -/
abbrev P := ExceptT Exception (StateM ArgParser)

/-- Run a handler on a parser object: its outcome and the object it leaves. -/
def P.exec {α : Type} (x : P α) (s : ArgParser) : Except Exception α × ArgParser :=
  (ExceptT.run x).run s

/-- The functions of `QUtil` that the handlers call and whose results depend on
what lies outside them: `parse_numrange(range, max)` returns the pages or throws
a `std::runtime_error` with a message, `file_can_be_opened` looks at the file
system, `string_to_int` is the value parsed from a string. -/
structure QUtil where
  parse_numrange : String → Int → Except String (List Int)
  file_can_be_opened : String → Bool
  string_to_int : String → Int

/-- Modelled from the spec: `QUtil::is_digit` (declared in `qpdf/QUtil.hh`), the
test for a decimal digit. -/
def QUtil.is_digit (c : Char) : Bool :=
  c.isDigit

/-- Position of the first `c` in a string: `std::string::find`, `none` for `npos`. -/
def string_find : List Char → Char → Option Nat
  | [], _ => none
  | x :: xs, c => if x = c then some 0 else (string_find xs c).map (· + 1)

/-- The suffix `s.substr(pos)`. -/
def String.substr (s : String) (pos : Nat) : String :=
  ⟨s.data.drop pos⟩

/-- The piece `s.substr(pos, n)`. -/
def String.substr_n (s : String) (pos n : Nat) : String :=
  ⟨(s.data.drop pos).take n⟩

namespace ArgParser

/-- Modelled from the spec: `QPDFArgParser::usage`, reached through
`ArgParser::usage`: it reports the usage error by throwing and never returns. -/
def usage {α : Type} (message : String) : P α :=
  throw (Exception.Usage message)

/-- The call `ap.selectOptionTable(name)`. -/
def selectOptionTable (name : OptionTable) : P Unit :=
  modify fun s => { s with ap := { s.ap with option_table := name } }

/-- The call `ap.insertCompletion(text)`. -/
def insertCompletion (text : String) : P Unit :=
  modify fun s => { s with ap := { s.ap with completions := s.ap.completions ++ [text] } }

/-- The call `accumulated_args.at(i)`. -/
def accumulated_args_at (i : Nat) : P String := do
  match (← get).accumulated_args[i]? with
  | some a => pure a
  | none => throw Exception.out_of_range

/-- The member `ArgParser::parseNumrange`. -/
def parseNumrange (q : QUtil) (range : String) (max : Int) (throw_error : Bool) :
    P (List Int) :=
  tryCatch
    (match q.parse_numrange range max with
      | .ok pages => pure pages
      | .error what => throw (Exception.runtime_error what))
    (fun e =>
      match e with
      | .runtime_error what =>
        if throw_error then throw e
        else do
          (usage what : P Unit)
          return []
      | _ => throw e)

/-- The member `ArgParser::argEncrypt`. -/
def argEncrypt : P Unit := do
  modify fun s => { s with accumulated_args := [] }
  if (← get).ap.completing && (← get).ap.args_left == 0 then
    insertCompletion "user-password"
  selectOptionTable .O_ENCRYPTION

/-- The member `ArgParser::argEncPositional`. -/
def argEncPositional (arg : String) : P Unit := do
  modify fun s => { s with accumulated_args := s.accumulated_args ++ [arg] }
  let n_args := (← get).accumulated_args.length
  if n_args < 3 then
    if (← get).ap.completing && (← get).ap.args_left == 0 then
      if n_args == 1 then
        insertCompletion "owner-password"
      else if n_args == 2 then
        insertCompletion "40"
        insertCompletion "128"
        insertCompletion "256"
    return
  let user_password ← accumulated_args_at 0
  modify fun s => { s with o := { s.o with user_password := user_password } }
  let owner_password ← accumulated_args_at 1
  modify fun s => { s with o := { s.o with owner_password := owner_password } }
  let len_str ← accumulated_args_at 2
  if len_str == "40" then
    modify fun s => { s with o := { s.o with keylen := 40 } }
    selectOptionTable .O_40_BIT_ENCRYPTION
  else if len_str == "128" then
    modify fun s => { s with o := { s.o with keylen := 128 } }
    selectOptionTable .O_128_BIT_ENCRYPTION
  else if len_str == "256" then
    modify fun s => { s with o := { s.o with keylen := 256 } }
    modify fun s => { s with o := { s.o with use_aes := true } }
    selectOptionTable .O_256_BIT_ENCRYPTION
  else
    usage "encryption key length must be 40, 128, or 256"

/-- The member `ArgParser::argPages`. -/
def argPages : P Unit := do
  if !(← get).o.page_specs.isEmpty then
    usage "the --pages may only be specified one time"
  modify fun s => { s with accumulated_args := [] }
  selectOptionTable .O_PAGES

/-- The member `ArgParser::argPagesPassword`. -/
def argPagesPassword (parameter : String) : P Unit := do
  if (← get).pages_password.isSome then
    usage "--password already specified for this file"
  if (← get).accumulated_args.length != 1 then
    usage "in --pages, --password must immediately follow a file name"
  modify fun s => { s with pages_password := some parameter }

/-- The member `ArgParser::argPagesPositional`; a null `arg` is `none`.  The calls
of `QTC::TC` record test coverage and are left out. -/
def argPagesPositional (q : QUtil) (arg : Option String) : P Unit := do
  match arg with
  | none =>
    if (← get).accumulated_args.isEmpty then
      return
  | some a =>
    modify fun s => { s with accumulated_args := s.accumulated_args ++ [a] }
  let file ← accumulated_args_at 0
  let mut range : Option String := none
  let n_args := (← get).accumulated_args.length
  if n_args ≥ 2 then
    range := some (← accumulated_args_at 1)
  let mut next_file : Option String := none
  match range with
  | none =>
    if arg.isNone then
      pure ()
    else
      return
  | some r =>
    try
      let _ ← parseNumrange q r 0 true
    catch e1 =>
      match e1 with
      | .runtime_error what =>
        if r == "." then
          pure ()
        else if q.file_can_be_opened r then
          pure ()
        else
          usage what
        next_file := some r
        range := none
      | _ => throw e1
  let range1 := range.getD "1-z"
  let spec : QPDFJob.PageSpec := ⟨file, (← get).pages_password, range1⟩
  modify fun s => { s with o := { s.o with page_specs := s.o.page_specs ++ [spec] } }
  modify fun s => { s with accumulated_args := [] }
  modify fun s => { s with pages_password := none }
  if let some f := next_file then
    modify fun s => { s with accumulated_args := s.accumulated_args ++ [f] }

/-- The member `ArgParser::argEndPages`. -/
def argEndPages (q : QUtil) : P Unit := do
  argPagesPositional q none
  if (← get).o.page_specs.isEmpty then
    usage "--pages: no page specifications given"

/-- The member `ArgParser::argDecodeLevel`. -/
def argDecodeLevel (parameter : String) : P Unit := do
  modify fun s => { s with o := { s.o with decode_level_set := true } }
  if parameter == "none" then
    modify fun s => { s with o := { s.o with decode_level := .qpdf_dl_none } }
  else if parameter == "generalized" then
    modify fun s => { s with o := { s.o with decode_level := .qpdf_dl_generalized } }
  else if parameter == "specialized" then
    modify fun s => { s with o := { s.o with decode_level := .qpdf_dl_specialized } }
  else if parameter == "all" then
    modify fun s => { s with o := { s.o with decode_level := .qpdf_dl_all } }
  else
    usage "invalid option"

/-- The first block of `ArgParser::parseRotationParameter`: the local variables
`angle_str` and `range` once the parameter has been cut at its first colon. -/
def rotationSplit (parameter : String) : String × String :=
  match string_find parameter.data ':' with
  | some colon =>
    (if colon > 0 then parameter.substr_n 0 colon else "",
      if colon + 1 < parameter.length then parameter.substr (colon + 1) else "")
  | none => (parameter, "")

/-- The second block of `ArgParser::parseRotationParameter`, under
`angle_str.length() > 0`: the local variables `relative` and `angle_str` once a
leading sign has been taken off, or the text dropped for not starting with a
digit. -/
def rotationSign (angle_str : String) : Int × String :=
  match angle_str.data with
  | first :: _ =>
    if first == '+' || first == '-' then
      (if first == '+' then 1 else -1, angle_str.substr 1)
    else if !QUtil.is_digit first then
      (0, "")
    else
      (0, angle_str)
  | [] => (0, angle_str)

/-- The part of `ArgParser::parseRotationParameter` that takes the text apart:
the values of the local variables `angle_str`, `range` and `relative` when the
validity of the range is about to be tested. -/
def rotationParts (parameter : String) : String × String × Int :=
  let split := rotationSplit parameter
  let signed := rotationSign split.1
  (signed.2, if split.2.isEmpty then "1-z" else split.2, signed.1)

/-- The member `ArgParser::parseRotationParameter`. -/
def parseRotationParameter (q : QUtil) (parameter : String) : P Unit := do
  let (angle_str, range, relative) := rotationParts parameter
  let range_valid ←
    tryCatch
      (do
        let _ ← parseNumrange q range 0 true
        pure true)
      (fun e =>
        match e with
        | .runtime_error _ => pure false
        | _ => throw e)
  if range_valid &&
      (angle_str == "0" || angle_str == "90" || angle_str == "180" || angle_str == "270") then
    let angle0 := q.string_to_int angle_str
    let angle := if relative == -1 then -angle0 else angle0
    modify fun s =>
      { s with
        o := { s.o with
          rotations :=
            Function.update s.o.rotations range (some ⟨angle, relative != 0⟩) } }
  else
    usage ("invalid parameter to rotate: " ++ parameter)

/-- The member `ArgParser::argRotate`. -/
def argRotate (q : QUtil) (parameter : String) : P Unit :=
  parseRotationParameter q parameter

end ArgParser

/-- The claim's reading of a rotation parameter, `[+|-]angle[:range]`: an optional
sign, the angle text, and the text after the colon when there is a colon. -/
structure RotationForm where
  sign : Option Char
  angle : String
  range : Option String
  deriving DecidableEq, Repr

/-- The parameter a form is written as. -/
def RotationForm.text (f : RotationForm) : String :=
  ⟨(match f.sign with
      | some c => [c]
      | none => []) ++ f.angle.data ++
    (match f.range with
      | some r => ':' :: r.data
      | none => [])⟩

/-- The sign is `+` or `-` when there is one, and the angle text is exactly
"0", "90", "180" or "270". -/
def RotationForm.wellFormed (f : RotationForm) : Prop :=
  (f.sign = none ∨ f.sign = some '+' ∨ f.sign = some '-') ∧
    f.angle ∈ ["0", "90", "180", "270"]

/-- The range of a form, "taken as `1-z` when there is no colon or nothing
follows it". -/
def RotationForm.rangeText (f : RotationForm) : String :=
  match f.range with
  | some r => if r = "" then "1-z" else r
  | none => "1-z"

/-- The rotation a form asks for: the parsed angle, negated exactly when the sign
is `-`, relative exactly when there is a sign. -/
def RotationForm.spec (q : QUtil) (f : RotationForm) : QPDFJob.RotationSpec :=
  ⟨if f.sign = some '-' then -q.string_to_int f.angle else q.string_to_int f.angle,
    f.sign.isSome⟩

/-- An argument met inside `--pages`: a positional argument or `--password`. -/
inductive PagesArg
  | positional (arg : String)
  | password (parameter : String)
  deriving DecidableEq, Repr

/-- The handler called for an argument met inside `--pages`. -/
def PagesArg.run (q : QUtil) : PagesArg → P Unit
  | .positional arg => ArgParser.argPagesPositional q (some arg)
  | .password parameter => ArgParser.argPagesPassword parameter

/-- The handlers of a list of arguments, called in order; the first one that
throws ends the parse. -/
def runPagesArgs (q : QUtil) : List PagesArg → P Unit
  | [] => pure ()
  | a :: rest => do
    a.run q
    runPagesArgs q rest

/-- At most the pending file name is accumulated, and a password is pending only
for a pending file name. -/
def pagesInvariant (s : ArgParser) : Prop :=
  s.accumulated_args.length ≤ 1 ∧
    (s.pages_password.isSome = true → s.accumulated_args.length = 1)

/-- A call of one of the handlers embedded above. -/
inductive Handler
  | argEncrypt
  | argEncPositional (arg : String)
  | argPages
  | argPagesPassword (parameter : String)
  | argPagesPositional (arg : String)
  | argEndPages
  | argRotate (parameter : String)
  | argDecodeLevel (parameter : String)
  deriving DecidableEq, Repr

/-- The member function a call stands for. -/
def Handler.run (q : QUtil) : Handler → P Unit
  | .argEncrypt => ArgParser.argEncrypt
  | .argEncPositional arg => ArgParser.argEncPositional arg
  | .argPages => ArgParser.argPages
  | .argPagesPassword parameter => ArgParser.argPagesPassword parameter
  | .argPagesPositional arg => ArgParser.argPagesPositional q (some arg)
  | .argEndPages => ArgParser.argEndPages q
  | .argRotate parameter => ArgParser.argRotate q parameter
  | .argDecodeLevel parameter => ArgParser.argDecodeLevel parameter

/-- The parser object left by a sequence of calls made one after the other,
whatever each call returns or throws. -/
def runHandlers (q : QUtil) : List Handler → ArgParser → ArgParser
  | [], s => s
  | h :: rest, s => runHandlers q rest ((h.run q).exec s).2

/-- An environment used for concrete evaluations: the ranges `1-z` and `1-3` are
valid, `b.pdf` is the only file that can be opened, numbers are read in decimal. -/
def exampleQUtil : QUtil :=
  ⟨fun r _ => if r = "1-z" || r = "1-3" then .ok [] else .error ("bad range " ++ r),
    fun f => f = "b.pdf", fun t => Int.ofNat (t.data.foldl (fun n c => 10 * n + (c.toNat - 48)) 0)⟩

/-- A parser object as the constructor leaves it, with an empty job. -/
def exampleParser : ArgParser :=
  ⟨⟨false, 0, [], .O_MAIN⟩, ⟨"", "", 0, false, false, .qpdf_dl_none, [], fun _ => none⟩, [], none⟩

namespace qpdf

open qpdf_object_type_e

/-! ## Running member functions -/

theorem exec_pure {α : Type} (a : α) (σ : Heap) : (pure a : M α).exec σ = (.ok a, σ) := rfl

theorem exec_bind {α β : Type} (x : M α) (f : α → M β) (σ : Heap) :
    (x >>= f).exec σ =
      match x.exec σ with
      | (.ok a, σ1) => (f a).exec σ1
      | (.error e, σ1) => (.error e, σ1) := by
  simp only [M.exec, ExceptT.run, bind, ExceptT.bind, ExceptT.mk, StateT.bind, StateT.run,
    ExceptT.bindCont]
  rcases x σ with ⟨r, σ1⟩
  cases r <;> rfl

theorem exec_throw {α : Type} (e : Failure) (σ : Heap) :
    (throw e : M α).exec σ = (.error e, σ) := rfl

theorem exec_get (σ : Heap) : (get : M Heap).exec σ = (.ok σ, σ) := rfl

theorem exec_type_code (this : BaseHandle) (σ : Heap) :
    (type_code this).exec σ = (.ok (kindOf σ this), σ) := by
  unfold type_code kindOf
  cases this.obj <;> rfl

/-- The kind test shared by the three narrowing functions, with the short-circuit
evaluation of the source: its value, and the store untouched. -/
theorem exec_kind_test (this : QPDFObjectHandle) (options : typed) (want : qpdf_object_type_e)
    (σ : Heap) :
    (pure (options.has any_flag) <||> (do pure ((← type_code this) == want)) <||>
      (pure (options.has optional) <&&> (do pure ((← type_code this) == ot_null))) : M Bool).exec σ
      = (.ok (options.has any_flag || kindOf σ this == want ||
          (options.has optional && kindOf σ this == ot_null)), σ) := by
  cases options.has any_flag <;> cases options.has optional <;>
    simp only [orM, andM, toBool, pure_bind, exec_bind, exec_pure, exec_type_code,
      Bool.false_or, Bool.true_or, Bool.false_and, Bool.true_and, Bool.or_false]
  · cases kindOf σ this == want <;> rfl
  · cases kindOf σ this == want <;> simp only [exec_pure, exec_bind, exec_type_code] <;> rfl

theorem exec_as_dictionary (this : QPDFObjectHandle) (options : typed) (σ : Heap) :
    (as_dictionary this options).exec σ =
      (if options.has any_flag || kindOf σ this == ot_dictionary ||
          (options.has optional && kindOf σ this == ot_null) then .ok ⟨this.obj⟩
        else if options.has error then .error (.type_mismatch "dictionary" (kindOf σ this))
        else .ok ⟨none⟩, σ) := by
  unfold as_dictionary assertType
  rw [exec_bind, exec_kind_test]
  generalize (options.has any_flag || kindOf σ this == ot_dictionary ||
          (options.has optional && kindOf σ this == ot_null)) = c
  cases c <;> cases options.has error <;>
    simp [exec_bind, exec_pure, exec_throw, exec_type_code]

theorem exec_as_stream (this : QPDFObjectHandle) (options : typed) (σ : Heap) :
    (as_stream this options).exec σ =
      (if options.has any_flag || kindOf σ this == ot_stream ||
          (options.has optional && kindOf σ this == ot_null) then .ok ⟨this.obj⟩
        else if options.has error then .error (.type_mismatch "stream" (kindOf σ this))
        else .ok ⟨none⟩, σ) := by
  unfold as_stream assertType
  rw [exec_bind, exec_kind_test]
  generalize (options.has any_flag || kindOf σ this == ot_stream ||
          (options.has optional && kindOf σ this == ot_null)) = c
  cases c <;> cases options.has error <;>
    simp [exec_bind, exec_pure, exec_throw, exec_type_code]

theorem exec_as_array (this : QPDFObjectHandle) (options : typed) (σ : Heap) :
    (as_array this options).exec σ =
      (if options.has error then .error (.type_mismatch "array" (kindOf σ this))
        else if options.has any_flag || kindOf σ this == ot_array ||
          (options.has optional && kindOf σ this == ot_null) then .ok ⟨this.obj⟩
        else .ok ⟨none⟩, σ) := by
  unfold as_array assertType
  cases options.has error
  · simp only [Bool.false_eq_true, if_false, exec_bind, exec_pure, exec_kind_test]
    generalize (options.has any_flag || kindOf σ this == ot_array ||
          (options.has optional && kindOf σ this == ot_null)) = c
    cases c <;> simp [exec_pure]
  · simp [exec_bind, exec_pure, exec_throw, exec_type_code]

theorem exec_modify (f : Heap → Heap) (σ : Heap) :
    (modify f : M Unit).exec σ = (.ok (), f σ) := rfl

theorem exec_load (s : Ptr) (σ : Heap) :
    (QPDF_Stream.load s).exec σ = (.ok (QPDF_Stream.at σ s), σ) := rfl

theorem exec_store (s : Ptr) (st : QPDF_Stream) (σ : Heap) :
    (QPDF_Stream.store s st).exec σ =
      (.ok (), σ.withStream s st) := rfl

theorem at_of_value {σ : Heap} {s : Ptr} {st : QPDF_Stream} (h : (σ s).value = .stream st) :
    QPDF_Stream.at σ s = st := by
  simp [QPDF_Stream.at, h]

/-- The private accessor on a view whose object resolves to a stream: the key
of that stream, the store untouched. -/
theorem exec_stream_ok {σ : Heap} {this : Stream} {p : Ptr} {st : QPDF_Stream}
    (hobj : this.obj = some p) (hval : (σ (resolved σ p)).value = .stream st) :
    this.stream.exec σ = (.ok (resolved σ p), σ) := by
  unfold Stream.stream QPDFObject.as_QPDF_Stream
  simp [hobj, exec_bind, exec_get, exec_pure, hval]

/-- Resolution only looks at which objects are references and where they point. -/
theorem resolved_congr {σ τ : Heap} (p : Ptr) (h : (τ p).value = (σ p).value) :
    resolved τ p = resolved σ p := by
  simp only [resolved, h]

/-- Overwriting the payload of the stream that `p` resolves to does not change
what `p` resolves to. -/
theorem resolved_update_stream (σ : Heap) (p : Ptr) (o : QPDFObject) (st1 : QPDF_Stream)
    (ho : o.value = .stream st1) :
    resolved (Function.update σ (resolved σ p) o) p = resolved σ p := by
  generalize hs : resolved σ p = s
  by_cases hp : p = s
  · subst hp
    simp [resolved, ho]
  · rw [← hs]
    exact resolved_congr p (by rw [hs, Function.update_noteq hp])

theorem exec_map {α β : Type} (f : α → β) (x : M α) (σ : Heap) :
    (f <$> x).exec σ =
      match x.exec σ with
      | (.ok a, σ1) => (.ok (f a), σ1)
      | (.error e, σ1) => (.error e, σ1) := by
  rw [map_eq_pure_bind, exec_bind]
  rcases x.exec σ with ⟨r, σ1⟩
  cases r <;> rfl

/-- The private accessor on a view whose object does not resolve to a stream. -/
theorem exec_stream_fail {σ : Heap} {this : Stream}
    (h : ∀ p, this.obj = some p → ∀ st, (σ (resolved σ p)).value ≠ .stream st) :
    this.stream.exec σ =
      (.error (.runtime_error "operation for stream attempted on object of type dictionary"), σ) := by
  unfold Stream.stream QPDFObject.as_QPDF_Stream
  cases hobj : this.obj with
  | none => simp [exec_throw]
  | some p =>
    have h1 := h p hobj
    cases hv : (σ (resolved σ p)).value <;>
      simp_all [exec_bind, exec_get, exec_pure, exec_throw]

/-- The private accessor either finds the stream its object resolves to, or throws;
the store is untouched either way. -/
theorem exec_stream_cases (σ : Heap) (this : Stream) :
    (∃ p st, this.obj = some p ∧ (σ (resolved σ p)).value = .stream st ∧
      this.stream.exec σ = (.ok (resolved σ p), σ)) ∨
    this.stream.exec σ =
      (.error (.runtime_error "operation for stream attempted on object of type dictionary"), σ) := by
  by_cases h : ∃ p st, this.obj = some p ∧ (σ (resolved σ p)).value = .stream st
  · obtain ⟨p, st, hobj, hval⟩ := h
    exact Or.inl ⟨p, st, hobj, hval, exec_stream_ok hobj hval⟩
  · refine Or.inr (exec_stream_fail ?_)
    intro p hobj st hval
    exact h ⟨p, st, hobj, hval⟩

theorem exec_getDict {σ : Heap} {this : Stream} {p : Ptr} {st : QPDF_Stream}
    (hobj : this.obj = some p) (hval : (σ (resolved σ p)).value = .stream st) :
    this.getDict.exec σ = (.ok st.stream_dict, σ) := by
  simp [Stream.getDict, exec_bind, exec_stream_ok hobj hval, exec_load, at_of_value hval,
    exec_pure, exec_map]

theorem exec_isDataModified {σ : Heap} {this : Stream} {p : Ptr} {st : QPDF_Stream}
    (hobj : this.obj = some p) (hval : (σ (resolved σ p)).value = .stream st) :
    this.isDataModified.exec σ = (.ok (!st.token_filters.isEmpty), σ) := by
  simp [Stream.isDataModified, exec_bind, exec_stream_ok hobj hval, exec_load, at_of_value hval,
    exec_pure, exec_map]

theorem exec_getFilterOnWrite {σ : Heap} {this : Stream} {p : Ptr} {st : QPDF_Stream}
    (hobj : this.obj = some p) (hval : (σ (resolved σ p)).value = .stream st) :
    this.getFilterOnWrite.exec σ = (.ok st.filter_on_write, σ) := by
  simp [Stream.getFilterOnWrite, exec_bind, exec_stream_ok hobj hval, exec_load,
    at_of_value hval, exec_pure, exec_map]

theorem exec_getLength {σ : Heap} {this : Stream} {p : Ptr} {st : QPDF_Stream}
    (hobj : this.obj = some p) (hval : (σ (resolved σ p)).value = .stream st) :
    this.getLength.exec σ = (.ok st.length, σ) := by
  simp [Stream.getLength, exec_bind, exec_stream_ok hobj hval, exec_load, at_of_value hval,
    exec_pure, exec_map]

theorem exec_getStreamDataBuffer {σ : Heap} {this : Stream} {p : Ptr} {st : QPDF_Stream}
    (hobj : this.obj = some p) (hval : (σ (resolved σ p)).value = .stream st) :
    this.getStreamDataBuffer.exec σ = (.ok st.stream_data, σ) := by
  simp [Stream.getStreamDataBuffer, exec_bind, exec_stream_ok hobj hval, exec_load,
    at_of_value hval, exec_pure, exec_map]

theorem exec_getStreamDataProvider {σ : Heap} {this : Stream} {p : Ptr} {st : QPDF_Stream}
    (hobj : this.obj = some p) (hval : (σ (resolved σ p)).value = .stream st) :
    this.getStreamDataProvider.exec σ = (.ok st.stream_provider, σ) := by
  simp [Stream.getStreamDataProvider, exec_bind, exec_stream_ok hobj hval, exec_load,
    at_of_value hval, exec_pure, exec_map]

theorem withStream_value (σ : Heap) (s : Ptr) (st : QPDF_Stream) :
    (σ.withStream s st s).value = .stream st := by
  simp [Heap.withStream]

theorem resolved_withStream (σ : Heap) (p : Ptr) (st1 : QPDF_Stream) :
    resolved (σ.withStream (resolved σ p) st1) p = resolved σ p :=
  resolved_update_stream σ p _ st1 rfl

theorem exec_addTokenFilter {σ : Heap} {this : Stream} {p : Ptr} {st : QPDF_Stream}
    (hobj : this.obj = some p) (hval : (σ (resolved σ p)).value = .stream st)
    (f : TokenFilter) :
    (this.addTokenFilter f).exec σ =
      (.ok (), σ.withStream (resolved σ p) { st with token_filters := st.token_filters ++ [f] }) := by
  simp [Stream.addTokenFilter, exec_bind, exec_stream_ok hobj hval, exec_load, at_of_value hval,
    exec_store]

theorem exec_setFilterOnWrite {σ : Heap} {this : Stream} {p : Ptr} {st : QPDF_Stream}
    (hobj : this.obj = some p) (hval : (σ (resolved σ p)).value = .stream st)
    (val : Bool) :
    (this.setFilterOnWrite val).exec σ =
      (.ok (), σ.withStream (resolved σ p) { st with filter_on_write := val }) := by
  simp [Stream.setFilterOnWrite, exec_bind, exec_stream_ok hobj hval, exec_load,
    at_of_value hval, exec_store]

/-! ## Narrowing: what each function does, by flag -/

/-- With the error flag set, `as_array` throws whatever the kind is. -/
theorem as_array_error_always_fails (σ : Heap) (this : QPDFObjectHandle) (options : typed)
    (herr : options.has error = true) :
    (as_array this options).exec σ = (.error (.type_mismatch "array" (kindOf σ this)), σ) := by
  simp [exec_as_array, herr]

/-- With the any flag set, `as_dictionary` and `as_stream` return the view over
the handle's object, whatever the kind and the other flags are. -/
theorem as_dictionary_as_stream_any (σ : Heap) (this : QPDFObjectHandle) (options : typed)
    (hany : options.has any_flag = true) :
    (as_dictionary this options).exec σ = (.ok ⟨this.obj⟩, σ) ∧
    (as_stream this options).exec σ = (.ok ⟨this.obj⟩, σ) := by
  simp [exec_as_dictionary, exec_as_stream, hany]

/-- With the optional flag set, `as_dictionary` and `as_stream` return the view
over the object of a Null handle, whatever the other flags are. -/
theorem as_dictionary_as_stream_optional_null (σ : Heap) (this : QPDFObjectHandle)
    (options : typed) (hopt : options.has optional = true) (hnull : kindOf σ this = ot_null) :
    (as_dictionary this options).exec σ = (.ok ⟨this.obj⟩, σ) ∧
    (as_stream this options).exec σ = (.ok ⟨this.obj⟩, σ) := by
  simp [exec_as_dictionary, exec_as_stream, hopt, hnull]

/-- Without the error flag, `as_array` returns the view over the handle's object
when the any flag is set, the kind is array, or the optional flag is set and the
kind is Null. -/
theorem as_array_without_error (σ : Heap) (this : QPDFObjectHandle) (options : typed)
    (herr : options.has error = false)
    (h : options.has any_flag = true ∨ kindOf σ this = ot_array ∨
      (options.has optional = true ∧ kindOf σ this = ot_null)) :
    (as_array this options).exec σ = (.ok ⟨this.obj⟩, σ) := by
  rcases h with h | h | ⟨h1, h2⟩ <;> simp [exec_as_array, herr, *]

/-! ## Narrowing -/

/-- C1 (defect in the code): in error mode `as_array` calls `assertType("array", false)`
before it tests the kind, so it fails on a handle whose resolved kind is array;
`as_dictionary` and `as_stream` make the call after the test.  Here key 0 holds an
array and the options are the error flag alone. -/
theorem as_array_error_fails_on_array :
    (type_code ⟨some 0⟩).exec exampleHeap = (.ok ot_array, exampleHeap) ∧
    (as_array ⟨some 0⟩ error).exec exampleHeap =
      (.error (.type_mismatch "array" ot_array), exampleHeap) :=
  ⟨rfl, rfl⟩

/-- C2: with the error flag alone, `as_dictionary` (`as_stream`) returns a view
over the handle's own object when the resolved kind is dictionary (stream), and
fails with the type mismatch for every other kind, whatever it is. -/
theorem as_dictionary_as_stream_error_only (σ : Heap) (this : QPDFObjectHandle)
    (k : qpdf_object_type_e) (hk : (type_code this).exec σ = (.ok k, σ)) :
    (as_dictionary this error).exec σ =
      (if k = ot_dictionary then .ok ⟨this.obj⟩
        else .error (.type_mismatch "dictionary" k), σ) ∧
    (as_stream this error).exec σ =
      (if k = ot_stream then .ok ⟨this.obj⟩
        else .error (.type_mismatch "stream" k), σ) := by
  rw [exec_type_code] at hk
  have hk1 : kindOf σ this = k := by injection (congrArg Prod.fst hk)
  subst hk1
  rw [exec_as_dictionary, exec_as_stream]
  have h1 : typed.has error any_flag = false := by decide
  have h2 : typed.has error optional = false := by decide
  have h3 : typed.has error error = true := by decide
  simp [h1, h2, h3]

/-- Witness of C2 on an uninitialised handle: both narrowings fail. -/
theorem as_dictionary_as_stream_error_only_witness :
    (type_code ⟨none⟩).exec exampleHeap = (.ok ot_uninitialized, exampleHeap) ∧
    ((as_dictionary ⟨none⟩ error).exec exampleHeap =
      (if ot_uninitialized = ot_dictionary then .ok ⟨none⟩
        else .error (.type_mismatch "dictionary" ot_uninitialized), exampleHeap) ∧
    (as_stream ⟨none⟩ error).exec exampleHeap =
      (if ot_uninitialized = ot_stream then .ok ⟨none⟩
        else .error (.type_mismatch "stream" ot_uninitialized), exampleHeap)) :=
  ⟨rfl, as_dictionary_as_stream_error_only exampleHeap ⟨none⟩ ot_uninitialized rfl⟩

/-- C3 (defect in the code): on a Null handle with optional and error both set,
`as_dictionary` and `as_stream` return the view over the handle's object, but
`as_array` fails, because its `assertType` call comes before the kind test.
Key 7 holds Null. -/
theorem as_array_optional_error_fails_on_null :
    (type_code ⟨some 7⟩).exec exampleHeap = (.ok ot_null, exampleHeap) ∧
    (as_array ⟨some 7⟩ (optional ||| error)).exec exampleHeap =
      (.error (.type_mismatch "array" ot_null), exampleHeap) ∧
    (as_dictionary ⟨some 7⟩ (optional ||| error)).exec exampleHeap =
      (.ok ⟨some 7⟩, exampleHeap) ∧
    (as_stream ⟨some 7⟩ (optional ||| error)).exec exampleHeap =
      (.ok ⟨some 7⟩, exampleHeap) :=
  ⟨rfl, rfl, rfl, rfl⟩

/-- C4 (defect in the code): with any and error both set, `as_dictionary` and
`as_stream` skip the kind test and return the view, but `as_array` fails, because
its `assertType` call comes before the test of the any flag.  Key 1 holds a
dictionary. -/
theorem as_array_any_error_fails :
    (as_array ⟨some 1⟩ (any_flag ||| error)).exec exampleHeap =
      (.error (.type_mismatch "array" ot_dictionary), exampleHeap) ∧
    (as_dictionary ⟨some 1⟩ (any_flag ||| error)).exec exampleHeap =
      (.ok ⟨some 1⟩, exampleHeap) ∧
    (as_stream ⟨some 1⟩ (any_flag ||| error)).exec exampleHeap =
      (.ok ⟨some 1⟩, exampleHeap) :=
  ⟨rfl, rfl, rfl⟩

/-! ## The stream view -/

/-- C5: on a view whose object is a stream with payload `st`, `isDataModified`
returns, and returns true exactly when the token-filter list of `st` is not
empty; with any replacement buffer and any replacement provider (present or
absent) put in place of the stream's own, it returns the same value. -/
theorem isDataModified_iff_token_filter (σ : Heap) (this : Stream) (p : Ptr) (st : QPDF_Stream)
    (hobj : this.obj = some p) (hval : (σ (resolved σ p)).value = .stream st) :
    (∃ b, this.isDataModified.exec σ = (.ok b, σ) ∧ (b = true ↔ st.token_filters ≠ [])) ∧
    ∀ (data : Option Buffer) (provider : Option StreamDataProvider),
      (this.isDataModified.exec
        (σ.withStream (resolved σ p)
          { st with stream_data := data, stream_provider := provider })).1 =
      (this.isDataModified.exec σ).1 := by
  refine ⟨⟨!st.token_filters.isEmpty, exec_isDataModified hobj hval, ?_⟩, ?_⟩
  · cases st.token_filters <;> simp
  · intro data provider
    have hval1 : ((σ.withStream (resolved σ p)
          { st with stream_data := data, stream_provider := provider })
        (resolved (σ.withStream (resolved σ p)
          { st with stream_data := data, stream_provider := provider }) p)).value =
        .stream { st with stream_data := data, stream_provider := provider } := by
      rw [resolved_withStream, withStream_value]
    rw [exec_isDataModified hobj hval1, exec_isDataModified hobj hval]

/-- Witness of C5: the stream at key 2 of the example store has no token filter. -/
theorem isDataModified_iff_token_filter_witness :
    (Stream.mk (some 2)).obj = some 2 ∧
    (exampleHeap (resolved exampleHeap 2)).value =
      .stream ⟨⟨some 1⟩, false, 0, none, none, []⟩ ∧
    ((∃ b, (Stream.mk (some 2)).isDataModified.exec exampleHeap = (.ok b, exampleHeap) ∧
        (b = true ↔ (QPDF_Stream.mk ⟨some 1⟩ false 0 none none []).token_filters ≠ [])) ∧
      ∀ (data : Option Buffer) (provider : Option StreamDataProvider),
        ((Stream.mk (some 2)).isDataModified.exec
          (exampleHeap.withStream (resolved exampleHeap 2)
            { (QPDF_Stream.mk ⟨some 1⟩ false 0 none none []) with
              stream_data := data, stream_provider := provider })).1 =
        ((Stream.mk (some 2)).isDataModified.exec exampleHeap).1) :=
  ⟨rfl, rfl, isDataModified_iff_token_filter exampleHeap ⟨some 2⟩ 2 _ rfl rfl⟩

/-- C6: on a view whose object is a stream with payload `st`, `addTokenFilter f`
succeeds and leaves a store that differs from the old one only in that the
token-filter list of that stream is the old list followed by `f`; adding `f1`
and then `f2` leaves the old list followed by `f1`, `f2` in that order. -/
theorem addTokenFilter_appends (σ : Heap) (this : Stream) (p : Ptr) (st : QPDF_Stream)
    (hobj : this.obj = some p) (hval : (σ (resolved σ p)).value = .stream st)
    (f f1 f2 : TokenFilter) :
    (this.addTokenFilter f).exec σ =
      (.ok (), σ.withStream (resolved σ p)
        { st with token_filters := st.token_filters ++ [f] }) ∧
    (do this.addTokenFilter f1; this.addTokenFilter f2 : M Unit).exec σ =
      (.ok (), σ.withStream (resolved σ p)
        { st with token_filters := st.token_filters ++ [f1, f2] }) := by
  refine ⟨exec_addTokenFilter hobj hval f, ?_⟩
  have hval1 : ((σ.withStream (resolved σ p) { st with token_filters := st.token_filters ++ [f1] })
        (resolved (σ.withStream (resolved σ p)
          { st with token_filters := st.token_filters ++ [f1] }) p)).value =
        .stream { st with token_filters := st.token_filters ++ [f1] } := by
    rw [resolved_withStream, withStream_value]
  rw [exec_bind, exec_addTokenFilter hobj hval f1]
  simp only
  rw [exec_addTokenFilter hobj hval1 f2, resolved_withStream]
  simp [Heap.withStream]

/-- Witness of C6 on the stream at key 4 of the example store, which already
has the token filters 10 and 11. -/
theorem addTokenFilter_appends_witness :
    (Stream.mk (some 4)).obj = some 4 ∧
    (exampleHeap (resolved exampleHeap 4)).value =
      .stream ⟨⟨some 1⟩, true, 3, some ⟨[37, 80, 68]⟩, none, [⟨10⟩, ⟨11⟩]⟩ ∧
    ((Stream.mk (some 4)).addTokenFilter ⟨5⟩).exec exampleHeap =
      (.ok (), exampleHeap.withStream 4
        ⟨⟨some 1⟩, true, 3, some ⟨[37, 80, 68]⟩, none, [⟨10⟩, ⟨11⟩, ⟨5⟩]⟩) ∧
    (do (Stream.mk (some 4)).addTokenFilter ⟨6⟩
        (Stream.mk (some 4)).addTokenFilter ⟨7⟩ : M Unit).exec exampleHeap =
      (.ok (), exampleHeap.withStream 4
        ⟨⟨some 1⟩, true, 3, some ⟨[37, 80, 68]⟩, none, [⟨10⟩, ⟨11⟩, ⟨6⟩, ⟨7⟩]⟩) :=
  ⟨rfl, rfl, addTokenFilter_appends exampleHeap ⟨some 4⟩ 4 _ rfl rfl ⟨5⟩ ⟨6⟩ ⟨7⟩⟩

/-! ### Stores that differ in descriptions and dictionary entries only -/

theorem withDescription_value (σ : Heap) (d : Ptr) (descr : Option String) (q : Ptr) :
    (σ.withDescription d descr q).value = (σ q).value := by
  unfold Heap.withDescription
  by_cases h : q = d
  · subst h; simp
  · rw [Function.update_noteq h]

theorem withFilterEntries_stream (σ : Heap) (d : Ptr) (filter decode_parms : QPDFObjectHandle)
    (q : Ptr) (st : QPDF_Stream) :
    (σ.withFilterEntries d filter decode_parms q).value = .stream st ↔
      (σ q).value = .stream st := by
  unfold Heap.withFilterEntries
  cases hv : (σ (resolved σ d)).value <;> simp only []
  by_cases h : q = resolved σ d
  · subst h; simp [hv]
  · rw [Function.update_noteq h]

theorem withFilterEntries_reference (σ : Heap) (d : Ptr) (filter decode_parms : QPDFObjectHandle)
    (q : Ptr) (t : Ptr) :
    (σ.withFilterEntries d filter decode_parms q).value = .reference t ↔
      (σ q).value = .reference t := by
  unfold Heap.withFilterEntries
  cases hv : (σ (resolved σ d)).value <;> simp only []
  by_cases h : q = resolved σ d
  · subst h; simp [hv]
  · rw [Function.update_noteq h]

theorem resolved_of_reference_iff {σ τ : Heap} (p : Ptr)
    (h : ∀ t, (τ p).value = .reference t ↔ (σ p).value = .reference t) :
    resolved τ p = resolved σ p := by
  unfold resolved
  cases hσ : (σ p).value <;> cases hτ : (τ p).value <;> simp_all

theorem resolved_withFilterEntries (σ : Heap) (d : Ptr) (filter decode_parms : QPDFObjectHandle)
    (p : Ptr) :
    resolved (σ.withFilterEntries d filter decode_parms) p = resolved σ p :=
  resolved_of_reference_iff p (withFilterEntries_reference σ d filter decode_parms p)

theorem resolved_withDescription (σ : Heap) (d : Ptr) (descr : Option String) (p : Ptr) :
    resolved (σ.withDescription d descr) p = resolved σ p :=
  resolved_congr p (withDescription_value σ d descr p)

theorem withStream_value_ne (σ : Heap) (s : Ptr) (st : QPDF_Stream) {q : Ptr} (h : q ≠ s) :
    σ.withStream s st q = σ q := by
  unfold Heap.withStream
  rw [Function.update_noteq h]

theorem withStream_withStream (σ : Heap) (s : Ptr) (st st1 : QPDF_Stream) :
    (σ.withStream s st).withStream s st1 = σ.withStream s st1 := by
  simp [Heap.withStream]

/-! ### What the writing members do on a stream -/

theorem exec_replaceDict {σ : Heap} {this : Stream} {p : Ptr} {st : QPDF_Stream}
    (hobj : this.obj = some p) (hval : (σ (resolved σ p)).value = .stream st)
    (describe : Heap → Ptr → Option String) (new_dict : QPDFObjectHandle) :
    (this.replaceDict describe new_dict).exec σ =
      (.ok (), afterReplaceDict describe σ (resolved σ p) st new_dict) := by
  unfold Stream.replaceDict QPDF_Stream.setDictDescription afterReplaceDict
  simp only [exec_bind, exec_stream_ok hobj hval, exec_load, at_of_value hval, exec_store,
    at_of_value (withStream_value _ _ _)]
  cases new_dict.obj <;> simp [exec_pure, exec_modify]

theorem afterReplaceDict_value (describe : Heap → Ptr → Option String) (σ : Heap) (s : Ptr)
    (st : QPDF_Stream) (new_dict : QPDFObjectHandle) :
    (afterReplaceDict describe σ s st new_dict s).value =
      .stream { st with stream_dict := new_dict } := by
  unfold afterReplaceDict
  cases new_dict.obj <;> simp [withDescription_value, withStream_value]

theorem resolved_afterReplaceDict (describe : Heap → Ptr → Option String) (σ : Heap) (p : Ptr)
    (st : QPDF_Stream) (new_dict : QPDFObjectHandle) :
    resolved (afterReplaceDict describe σ (resolved σ p) st new_dict) p = resolved σ p := by
  unfold afterReplaceDict
  cases new_dict.obj <;> simp [resolved_withDescription, resolved_withStream]

theorem exec_replaceFilterData {σ : Heap} {this : Stream} {p : Ptr} {st : QPDF_Stream}
    (hobj : this.obj = some p) (hval : (σ (resolved σ p)).value = .stream st)
    (filter decode_parms : QPDFObjectHandle) (length : Nat) :
    (this.replaceFilterData filter decode_parms length).exec σ =
      (.ok (), afterReplaceFilterData σ (resolved σ p) st filter decode_parms length) := by
  unfold Stream.replaceFilterData afterReplaceFilterData
  simp only [exec_bind, exec_stream_ok hobj hval, exec_load, at_of_value hval, exec_store,
    at_of_value (withStream_value _ _ _)]
  cases st.stream_dict.obj <;> simp [exec_pure, exec_modify]

theorem afterReplaceFilterData_stream (σ : Heap) (s : Ptr) (st : QPDF_Stream)
    (filter decode_parms : QPDFObjectHandle) (length : Nat) (q : Ptr) (st1 : QPDF_Stream) :
    (afterReplaceFilterData σ s st filter decode_parms length q).value = .stream st1 ↔
      (σ.withStream s { st with length := length } q).value = .stream st1 := by
  unfold afterReplaceFilterData
  cases st.stream_dict.obj <;> simp [withFilterEntries_stream]

theorem resolved_afterReplaceFilterData (σ : Heap) (p : Ptr) (st : QPDF_Stream)
    (filter decode_parms : QPDFObjectHandle) (length : Nat) :
    resolved (afterReplaceFilterData σ (resolved σ p) st filter decode_parms length) p =
      resolved σ p := by
  unfold afterReplaceFilterData
  cases st.stream_dict.obj <;> simp [resolved_withFilterEntries, resolved_withStream]

theorem exec_replaceStreamData_buffer {σ : Heap} {this : Stream} {p : Ptr} {st : QPDF_Stream}
    (hobj : this.obj = some p) (hval : (σ (resolved σ p)).value = .stream st)
    (data : Buffer) (filter decode_parms : QPDFObjectHandle) :
    (this.replaceStreamData_buffer data filter decode_parms).exec σ =
      (.ok (), afterReplaceStreamData σ (resolved σ p) st (some data) none filter decode_parms
        data.bytes.length) := by
  have hval1 : ((σ.withStream (resolved σ p)
        { st with stream_data := some data, stream_provider := none })
      (resolved (σ.withStream (resolved σ p)
        { st with stream_data := some data, stream_provider := none }) p)).value =
      .stream { st with stream_data := some data, stream_provider := none } := by
    rw [resolved_withStream, withStream_value]
  unfold Stream.replaceStreamData_buffer afterReplaceStreamData
  simp only [exec_bind, exec_stream_ok hobj hval, exec_load, at_of_value hval, exec_store]
  rw [exec_replaceFilterData hobj hval1, resolved_withStream]

theorem exec_replaceStreamData_provider {σ : Heap} {this : Stream} {p : Ptr} {st : QPDF_Stream}
    (hobj : this.obj = some p) (hval : (σ (resolved σ p)).value = .stream st)
    (provider : StreamDataProvider) (filter decode_parms : QPDFObjectHandle) :
    (this.replaceStreamData_provider provider filter decode_parms).exec σ =
      (.ok (), afterReplaceStreamData σ (resolved σ p) st none (some provider) filter
        decode_parms 0) := by
  have hval1 : ((σ.withStream (resolved σ p)
        { st with stream_provider := some provider, stream_data := none })
      (resolved (σ.withStream (resolved σ p)
        { st with stream_provider := some provider, stream_data := none }) p)).value =
      .stream { st with stream_provider := some provider, stream_data := none } := by
    rw [resolved_withStream, withStream_value]
  unfold Stream.replaceStreamData_provider afterReplaceStreamData
  simp only [exec_bind, exec_stream_ok hobj hval, exec_load, at_of_value hval, exec_store]
  rw [exec_replaceFilterData hobj hval1, resolved_withStream]

theorem afterReplaceStreamData_value (σ : Heap) (s : Ptr) (st : QPDF_Stream)
    (data : Option Buffer) (provider : Option StreamDataProvider)
    (filter decode_parms : QPDFObjectHandle) (length : Nat) :
    (afterReplaceStreamData σ s st data provider filter decode_parms length s).value =
      .stream { st with stream_data := data, stream_provider := provider, length := length } := by
  unfold afterReplaceStreamData
  rw [afterReplaceFilterData_stream, withStream_value]

theorem resolved_afterReplaceStreamData (σ : Heap) (p : Ptr) (st : QPDF_Stream)
    (data : Option Buffer) (provider : Option StreamDataProvider)
    (filter decode_parms : QPDFObjectHandle) (length : Nat) :
    resolved (afterReplaceStreamData σ (resolved σ p) st data provider filter decode_parms
      length) p = resolved σ p := by
  unfold afterReplaceStreamData
  have h := resolved_afterReplaceFilterData
    (σ.withStream (resolved σ p) { st with stream_data := data, stream_provider := provider }) p
    { st with stream_data := data, stream_provider := provider } filter decode_parms length
  rw [resolved_withStream] at h
  rw [h]

/-! ### The single-valued data source -/

theorem single_valued_withStream {σ : Heap} (hσ : single_valued σ) (s : Ptr) (st : QPDF_Stream)
    (h : st.stream_data = none ∨ st.stream_provider = none) :
    single_valued (σ.withStream s st) := by
  intro q st1 hq
  by_cases hqs : q = s
  · subst hqs
    rw [withStream_value] at hq
    injection hq with hq
    subst hq
    exact h
  · rw [withStream_value_ne _ _ _ hqs] at hq
    exact hσ q st1 hq

theorem single_valued_of_stream_iff {σ τ : Heap}
    (h : ∀ q st, (τ q).value = .stream st ↔ (σ q).value = .stream st)
    (hσ : single_valued σ) : single_valued τ :=
  fun q st hq => hσ q st ((h q st).mp hq)

theorem afterReplaceDict_values (describe : Heap → Ptr → Option String) (σ : Heap) (s : Ptr)
    (st : QPDF_Stream) (new_dict : QPDFObjectHandle) (q : Ptr) :
    (afterReplaceDict describe σ s st new_dict q).value =
      (σ.withStream s { st with stream_dict := new_dict } q).value := by
  unfold afterReplaceDict
  cases new_dict.obj <;> simp [withDescription_value]

theorem afterReplaceStreamData_stream (σ : Heap) (s : Ptr) (st : QPDF_Stream)
    (data : Option Buffer) (provider : Option StreamDataProvider)
    (filter decode_parms : QPDFObjectHandle) (length : Nat) (q : Ptr) (st1 : QPDF_Stream) :
    (afterReplaceStreamData σ s st data provider filter decode_parms length q).value =
      .stream st1 ↔
    (σ.withStream s
      { st with stream_data := data, stream_provider := provider, length := length } q).value =
      .stream st1 := by
  unfold afterReplaceStreamData
  rw [afterReplaceFilterData_stream, withStream_withStream]

/-- A member that starts with `stream()` throws what `stream()` throws, and leaves
the store alone. -/
theorem exec_run_of_stream_fail (describe : Heap → Ptr → Option String) (c : StreamCall)
    (this : Stream) (e : Failure) (σ : Heap) (hfail : this.stream.exec σ = (.error e, σ))
    (hc : (∃ data filter decode_parms,
            c = .replaceStreamData_buffer this data filter decode_parms) ∨
          (∃ provider filter decode_parms,
            c = .replaceStreamData_provider this provider filter decode_parms) ∨
          (∃ f, c = .addTokenFilter this f) ∨ (∃ val, c = .setFilterOnWrite this val) ∨
          (∃ d, c = .replaceDict this d)) :
    (c.run describe).exec σ = (.error e, σ) := by
  rcases hc with ⟨_, _, _, rfl⟩ | ⟨_, _, _, rfl⟩ | ⟨_, rfl⟩ | ⟨_, rfl⟩ | ⟨_, rfl⟩ <;>
    simp [StreamCall.run, Stream.replaceStreamData_buffer, Stream.replaceStreamData_provider,
      Stream.addTokenFilter, Stream.setFilterOnWrite, Stream.replaceDict, exec_bind, hfail]

/-- Every writing member keeps every data source single-valued, whether it
returns or throws. -/
theorem single_valued_run (describe : Heap → Ptr → Option String) (c : StreamCall) (σ : Heap)
    (hσ : single_valued σ) : single_valued ((c.run describe).exec σ).2 := by
  rcases exec_stream_cases σ c.this with ⟨p, st, hobj, hval, -⟩ | hfail
  · have hst := hσ _ _ hval
    cases c with
    | replaceStreamData_buffer this data filter decode_parms =>
      change this.obj = some p at hobj
      simp only [StreamCall.run, exec_replaceStreamData_buffer hobj hval]
      exact single_valued_of_stream_iff (afterReplaceStreamData_stream _ _ _ _ _ _ _ _)
        (single_valued_withStream hσ _ _ (Or.inr rfl))
    | replaceStreamData_provider this provider filter decode_parms =>
      change this.obj = some p at hobj
      simp only [StreamCall.run, exec_replaceStreamData_provider hobj hval]
      exact single_valued_of_stream_iff (afterReplaceStreamData_stream _ _ _ _ _ _ _ _)
        (single_valued_withStream hσ _ _ (Or.inl rfl))
    | addTokenFilter this f =>
      change this.obj = some p at hobj
      simp only [StreamCall.run, exec_addTokenFilter hobj hval]
      exact single_valued_withStream hσ _ _ hst
    | setFilterOnWrite this val =>
      change this.obj = some p at hobj
      simp only [StreamCall.run, exec_setFilterOnWrite hobj hval]
      exact single_valued_withStream hσ _ _ hst
    | replaceDict this d =>
      change this.obj = some p at hobj
      simp only [StreamCall.run, exec_replaceDict hobj hval]
      refine single_valued_of_stream_iff (fun q st1 => ?_)
        (single_valued_withStream hσ (resolved σ p) { st with stream_dict := d } hst)
      rw [afterReplaceDict_values]
  · have h := exec_run_of_stream_fail describe c c.this _ σ hfail (by
      cases c <;> simp [StreamCall.this])
    rw [h]
    exact hσ

theorem single_valued_runCalls (describe : Heap → Ptr → Option String) (calls : List StreamCall) :
    ∀ σ, single_valued σ → single_valued (runCalls describe calls σ) := by
  induction calls with
  | nil => intro σ hσ; exact hσ
  | cons c cs ih => intro σ hσ; exact ih _ (single_valued_run describe c σ hσ)

theorem single_valued_exampleHeap : single_valued exampleHeap := by
  intro q st h
  unfold exampleHeap at h
  split at h <;> simp at h <;> subst h <;> simp

/-- C7: the data source of a stream is single-valued.  On a view whose object
is a stream, `replaceStreamData` with a buffer returns and leaves
`getStreamDataProvider` empty and `getStreamDataBuffer` that buffer;
`replaceStreamData` with a provider returns and leaves `getStreamDataBuffer`
empty and `getStreamDataProvider` that provider.  From a store in which no
stream has both, `addTokenFilter`, `setFilterOnWrite` and `replaceDict` on any
view leave a store in which no stream has both, and so does any sequence of
calls of the five writing members. -/
theorem data_source_single_valued (describe : Heap → Ptr → Option String) (σ : Heap)
    (this : Stream) (p : Ptr) (st : QPDF_Stream)
    (hobj : this.obj = some p) (hval : (σ (resolved σ p)).value = .stream st)
    (hσ : single_valued σ) (data : Buffer) (provider : StreamDataProvider)
    (filter decode_parms : QPDFObjectHandle) :
    (∃ σ1, (this.replaceStreamData_buffer data filter decode_parms).exec σ = (.ok (), σ1) ∧
      this.getStreamDataProvider.exec σ1 = (.ok none, σ1) ∧
      this.getStreamDataBuffer.exec σ1 = (.ok (some data), σ1)) ∧
    (∃ σ1, (this.replaceStreamData_provider provider filter decode_parms).exec σ = (.ok (), σ1) ∧
      this.getStreamDataBuffer.exec σ1 = (.ok none, σ1) ∧
      this.getStreamDataProvider.exec σ1 = (.ok (some provider), σ1)) ∧
    (∀ (that : Stream) (f : TokenFilter), single_valued ((that.addTokenFilter f).exec σ).2) ∧
    (∀ (that : Stream) (val : Bool), single_valued ((that.setFilterOnWrite val).exec σ).2) ∧
    (∀ (that : Stream) (d : QPDFObjectHandle),
      single_valued ((that.replaceDict describe d).exec σ).2) ∧
    (∀ calls : List StreamCall, single_valued (runCalls describe calls σ)) := by
  refine ⟨⟨_, exec_replaceStreamData_buffer hobj hval data filter decode_parms, ?_, ?_⟩,
    ⟨_, exec_replaceStreamData_provider hobj hval provider filter decode_parms, ?_, ?_⟩,
    fun that f => single_valued_run describe (.addTokenFilter that f) σ hσ,
    fun that val => single_valued_run describe (.setFilterOnWrite that val) σ hσ,
    fun that d => single_valued_run describe (.replaceDict that d) σ hσ,
    fun calls => single_valued_runCalls describe calls σ hσ⟩
  · have h := afterReplaceStreamData_value σ (resolved σ p) st (some data) none filter
      decode_parms data.bytes.length
    exact exec_getStreamDataProvider hobj (by rw [resolved_afterReplaceStreamData]; exact h)
  · have h := afterReplaceStreamData_value σ (resolved σ p) st (some data) none filter
      decode_parms data.bytes.length
    exact exec_getStreamDataBuffer hobj (by rw [resolved_afterReplaceStreamData]; exact h)
  · have h := afterReplaceStreamData_value σ (resolved σ p) st none (some provider) filter
      decode_parms 0
    exact exec_getStreamDataBuffer hobj (by rw [resolved_afterReplaceStreamData]; exact h)
  · have h := afterReplaceStreamData_value σ (resolved σ p) st none (some provider) filter
      decode_parms 0
    exact exec_getStreamDataProvider hobj (by rw [resolved_afterReplaceStreamData]; exact h)

/-- Witness of C7 on the stream at key 4 of the example store, which has a
replacement buffer: after `replaceStreamData` with provider 9 the buffer is gone. -/
theorem data_source_single_valued_witness :
    (Stream.mk (some 4)).obj = some 4 ∧
    (exampleHeap (resolved exampleHeap 4)).value =
      .stream ⟨⟨some 1⟩, true, 3, some ⟨[37, 80, 68]⟩, none, [⟨10⟩, ⟨11⟩]⟩ ∧
    single_valued exampleHeap ∧
    (∃ σ1, ((Stream.mk (some 4)).replaceStreamData_provider ⟨9⟩ ⟨none⟩ ⟨none⟩).exec exampleHeap =
        (.ok (), σ1) ∧
      (Stream.mk (some 4)).getStreamDataBuffer.exec σ1 = (.ok none, σ1) ∧
      (Stream.mk (some 4)).getStreamDataProvider.exec σ1 = (.ok (some ⟨9⟩), σ1)) ∧
    single_valued (runCalls (fun _ _ => none)
      [.replaceStreamData_buffer ⟨some 2⟩ ⟨[1]⟩ ⟨none⟩ ⟨none⟩, .replaceDict ⟨some 4⟩ ⟨some 0⟩]
      exampleHeap) :=
  ⟨rfl, rfl, single_valued_exampleHeap,
    (data_source_single_valued (fun _ _ => none) exampleHeap ⟨some 4⟩ 4 _ rfl rfl
      single_valued_exampleHeap ⟨[1]⟩ ⟨9⟩ ⟨none⟩ ⟨none⟩).2.1,
    (data_source_single_valued (fun _ _ => none) exampleHeap ⟨some 4⟩ 4 _ rfl rfl
      single_valued_exampleHeap ⟨[1]⟩ ⟨9⟩ ⟨none⟩ ⟨none⟩).2.2.2.2.2 _⟩

/-- C8: on a view whose object is a stream with payload `st`, `replaceDict d`
returns, and in the store it leaves `getDict` returns `d` while the replacement
buffer, the replacement provider, the length and the filter-on-write flag are
those of `st`; the payload of the stream is `st` with the dictionary swapped, so
the token-filter list is that of `st` too. -/
theorem replaceDict_swaps_dict (describe : Heap → Ptr → Option String) (σ : Heap)
    (this : Stream) (p : Ptr) (st : QPDF_Stream)
    (hobj : this.obj = some p) (hval : (σ (resolved σ p)).value = .stream st)
    (d : QPDFObjectHandle) :
    ∃ σ1, (this.replaceDict describe d).exec σ = (.ok (), σ1) ∧
      this.getDict.exec σ1 = (.ok d, σ1) ∧
      this.getStreamDataBuffer.exec σ1 = (.ok st.stream_data, σ1) ∧
      this.getStreamDataProvider.exec σ1 = (.ok st.stream_provider, σ1) ∧
      this.getLength.exec σ1 = (.ok st.length, σ1) ∧
      this.getFilterOnWrite.exec σ1 = (.ok st.filter_on_write, σ1) ∧
      (σ1 (resolved σ1 p)).value = .stream { st with stream_dict := d } ∧
      ({ st with stream_dict := d } : QPDF_Stream).token_filters = st.token_filters := by
  have h : (afterReplaceDict describe σ (resolved σ p) st d
      (resolved (afterReplaceDict describe σ (resolved σ p) st d) p)).value =
      .stream { st with stream_dict := d } := by
    rw [resolved_afterReplaceDict, afterReplaceDict_value]
  have h1 := exec_getDict hobj h
  have h2 := exec_getStreamDataBuffer hobj h
  have h3 := exec_getStreamDataProvider hobj h
  have h4 := exec_getLength hobj h
  have h5 := exec_getFilterOnWrite hobj h
  exact ⟨_, exec_replaceDict hobj hval describe d, h1, h2, h3, h4, h5, h, rfl⟩

/-- Witness of C8: the dictionary of the stream at key 4 is swapped for the
array at key 0; the buffer and the two token filters stay. -/
theorem replaceDict_swaps_dict_witness :
    (Stream.mk (some 4)).obj = some 4 ∧
    (exampleHeap (resolved exampleHeap 4)).value =
      .stream ⟨⟨some 1⟩, true, 3, some ⟨[37, 80, 68]⟩, none, [⟨10⟩, ⟨11⟩]⟩ ∧
    ∃ σ1, ((Stream.mk (some 4)).replaceDict (fun _ _ => some "dict") ⟨some 0⟩).exec exampleHeap =
        (.ok (), σ1) ∧
      (Stream.mk (some 4)).getDict.exec σ1 = (.ok ⟨some 0⟩, σ1) ∧
      (Stream.mk (some 4)).getStreamDataBuffer.exec σ1 = (.ok (some ⟨[37, 80, 68]⟩), σ1) ∧
      (Stream.mk (some 4)).getStreamDataProvider.exec σ1 = (.ok none, σ1) ∧
      (Stream.mk (some 4)).getLength.exec σ1 = (.ok 3, σ1) ∧
      (Stream.mk (some 4)).getFilterOnWrite.exec σ1 = (.ok true, σ1) ∧
      (σ1 (resolved σ1 4)).value =
        .stream ⟨⟨some 0⟩, true, 3, some ⟨[37, 80, 68]⟩, none, [⟨10⟩, ⟨11⟩]⟩ ∧
      [TokenFilter.mk 10, ⟨11⟩] = [⟨10⟩, ⟨11⟩] :=
  ⟨rfl, rfl, replaceDict_swaps_dict (fun _ _ => some "dict") exampleHeap ⟨some 4⟩ 4 _ rfl rfl
    ⟨some 0⟩⟩

/-! ## Narrowing: frame and resolution -/

/-- C9: `as_array`, `as_dictionary` and `as_stream` leave the store as they found
it, for every handle and every option set, whether they return a view or throw:
every object, the one of the handle included, is what it was, and `type_code` on
the handle gives what it gave. -/
theorem narrowing_leaves_store (σ : Heap) (this : QPDFObjectHandle) (options : typed) :
    ((as_array this options).exec σ).2 = σ ∧
    ((as_dictionary this options).exec σ).2 = σ ∧
    ((as_stream this options).exec σ).2 = σ ∧
    (type_code this).exec ((as_array this options).exec σ).2 = (type_code this).exec σ ∧
    (type_code this).exec ((as_dictionary this options).exec σ).2 = (type_code this).exec σ ∧
    (type_code this).exec ((as_stream this options).exec σ).2 = (type_code this).exec σ := by
  simp only [exec_as_array, exec_as_dictionary, exec_as_stream, and_self]

/-- C10: `type_code` is the resolved type code of the object when the handle
holds one and `ot_uninitialized` when it holds none; the outcome of each
narrowing depends on the store through `type_code` only; and a handle to a
reference that resolves to a dictionary, whose own tag is `ot_reference`, has
`type_code` dictionary and is narrowed by `as_dictionary` to the view over its
object, for every option set, as a handle to a dictionary is. -/
theorem narrowing_uses_resolved_kind (σ τ : Heap) (this : QPDFObjectHandle) (options : typed)
    (r q d : Ptr)
    (hsame : ((type_code this).exec σ).1 = ((type_code this).exec τ).1)
    (href : (σ r).value = .reference q)
    (hq : (σ q).value.getTypeCode = ot_dictionary)
    (hd : (σ d).value.getTypeCode = ot_dictionary) :
    (∀ p, (type_code ⟨some p⟩).exec σ = (getResolvedTypeCode p).exec σ) ∧
    (type_code ⟨none⟩).exec σ = (.ok ot_uninitialized, σ) ∧
    ((as_array this options).exec σ).1 = ((as_array this options).exec τ).1 ∧
    ((as_dictionary this options).exec σ).1 = ((as_dictionary this options).exec τ).1 ∧
    ((as_stream this options).exec σ).1 = ((as_stream this options).exec τ).1 ∧
    (σ r).value.getTypeCode = ot_reference ∧
    (type_code ⟨some r⟩).exec σ = (.ok ot_dictionary, σ) ∧
    (as_dictionary ⟨some r⟩ options).exec σ = (.ok ⟨some r⟩, σ) ∧
    (type_code ⟨some d⟩).exec σ = (.ok ot_dictionary, σ) ∧
    (as_dictionary ⟨some d⟩ options).exec σ = (.ok ⟨some d⟩, σ) := by
  have hk : kindOf σ this = kindOf τ this := by
    simp only [exec_type_code] at hsame
    injection hsame
  have hr : kindOf σ ⟨some r⟩ = ot_dictionary := by
    simp [kindOf, resolved, href, hq]
  have hdd : kindOf σ ⟨some d⟩ = ot_dictionary := by
    have : resolved σ d = d := by
      unfold resolved
      cases hv : (σ d).value <;> simp_all [Value.getTypeCode]
    simp [kindOf, this, hd]
  refine ⟨fun p => rfl, rfl, ?_, ?_, ?_, ?_, ?_, ?_, ?_, ?_⟩
  · simp only [exec_as_array, hk]
  · simp only [exec_as_dictionary, hk]
  · simp only [exec_as_stream, hk]
  · simp [href, Value.getTypeCode]
  · rw [exec_type_code, hr]
  · simp [exec_as_dictionary, hr]
  · rw [exec_type_code, hdd]
  · simp [exec_as_dictionary, hdd]

/-- Witness of C10 in the example store: key 3 is a reference to the dictionary
at key 1. -/
theorem narrowing_uses_resolved_kind_witness :
    ((type_code ⟨some 3⟩).exec exampleHeap).1 =
      ((type_code ⟨some 3⟩).exec (exampleHeap.withDescription 3 (some "x"))).1 ∧
    (exampleHeap 3).value = .reference 1 ∧
    (exampleHeap 1).value.getTypeCode = ot_dictionary ∧
    (exampleHeap 3).value.getTypeCode = ot_reference ∧
    (type_code ⟨some 3⟩).exec exampleHeap = (.ok ot_dictionary, exampleHeap) ∧
    (as_dictionary ⟨some 3⟩ error).exec exampleHeap = (.ok ⟨some 3⟩, exampleHeap) ∧
    (type_code ⟨some 1⟩).exec exampleHeap = (.ok ot_dictionary, exampleHeap) ∧
    (as_dictionary ⟨some 1⟩ error).exec exampleHeap = (.ok ⟨some 1⟩, exampleHeap) :=
  ⟨rfl, rfl, rfl,
    (narrowing_uses_resolved_kind exampleHeap (exampleHeap.withDescription 3 (some "x"))
      ⟨some 3⟩ error 3 1 1 rfl rfl rfl rfl).2.2.2.2.2⟩

end qpdf

/-! # Command-line arguments: running handlers -/

namespace ArgParser

theorem pexec_pure {α : Type} (a : α) (s : ArgParser) : (pure a : P α).exec s = (.ok a, s) := rfl

theorem pexec_bind {α β : Type} (x : P α) (f : α → P β) (s : ArgParser) :
    (x >>= f).exec s =
      match x.exec s with
      | (.ok a, s1) => (f a).exec s1
      | (.error e, s1) => (.error e, s1) := by
  simp only [P.exec, ExceptT.run, bind, ExceptT.bind, ExceptT.mk, StateT.bind, StateT.run,
    ExceptT.bindCont]
  rcases x s with ⟨r, s1⟩
  cases r <;> rfl

theorem pexec_throw {α : Type} (e : Exception) (s : ArgParser) :
    (throw e : P α).exec s = (.error e, s) := rfl

theorem pexec_usage {α : Type} (message : String) (s : ArgParser) :
    (usage message : P α).exec s = (.error (.Usage message), s) := rfl

theorem pexec_get (s : ArgParser) : (get : P ArgParser).exec s = (.ok s, s) := rfl

theorem pexec_modify (f : ArgParser → ArgParser) (s : ArgParser) :
    (modify f : P Unit).exec s = (.ok (), f s) := rfl

theorem pexec_selectOptionTable (name : OptionTable) (s : ArgParser) :
    (selectOptionTable name).exec s =
      (.ok (), { s with ap := { s.ap with option_table := name } }) := rfl

theorem pexec_insertCompletion (text : String) (s : ArgParser) :
    (insertCompletion text).exec s =
      (.ok (), { s with ap := { s.ap with completions := s.ap.completions ++ [text] } }) := rfl

theorem pexec_map {α β : Type} (f : α → β) (x : P α) (s : ArgParser) :
    (f <$> x).exec s =
      match x.exec s with
      | (.ok a, s1) => (.ok (f a), s1)
      | (.error e, s1) => (.error e, s1) := by
  rw [map_eq_pure_bind, pexec_bind]
  rcases x.exec s with ⟨r, s1⟩
  cases r <;> rfl

theorem pexec_tryCatch {α : Type} (x : P α) (h : Exception → P α) (s : ArgParser) :
    (tryCatch x h).exec s =
      match x.exec s with
      | (.ok a, s1) => (.ok a, s1)
      | (.error e, s1) => (h e).exec s1 := by
  simp only [P.exec, ExceptT.run, tryCatch, tryCatchThe, MonadExceptOf.tryCatch,
    ExceptT.tryCatch, ExceptT.mk, bind, StateT.bind, StateT.run]
  rcases x s with ⟨r, s1⟩
  cases r <;> rfl

theorem pexec_argDecodeLevel (parameter : String) (s : ArgParser) :
    (argDecodeLevel parameter).exec s =
      if parameter = "none" then
        (.ok (), { s with o := { s.o with decode_level_set := true, decode_level := .qpdf_dl_none } })
      else if parameter = "generalized" then
        (.ok (), { s with
          o := { s.o with decode_level_set := true, decode_level := .qpdf_dl_generalized } })
      else if parameter = "specialized" then
        (.ok (), { s with
          o := { s.o with decode_level_set := true, decode_level := .qpdf_dl_specialized } })
      else if parameter = "all" then
        (.ok (), { s with o := { s.o with decode_level_set := true, decode_level := .qpdf_dl_all } })
      else
        (.error (.Usage "invalid option"), { s with o := { s.o with decode_level_set := true } }) := by
  unfold argDecodeLevel
  simp only [pexec_bind, pexec_modify, beq_iff_eq]
  split_ifs <;> simp [pexec_modify, pexec_usage]

theorem pexec_accumulated_args_at (i : Nat) (s : ArgParser) :
    (accumulated_args_at i).exec s =
      match s.accumulated_args[i]? with
      | some a => (.ok a, s)
      | none => (.error .out_of_range, s) := by
  unfold accumulated_args_at
  simp only [pexec_bind, pexec_get]
  cases s.accumulated_args[i]? <;> rfl

theorem pexec_parseNumrange_true (q : QUtil) (range : String) (max : Int) (s : ArgParser) :
    (parseNumrange q range max true).exec s =
      match q.parse_numrange range max with
      | .ok pages => (.ok pages, s)
      | .error what => (.error (.runtime_error what), s) := by
  unfold parseNumrange
  rw [pexec_tryCatch]
  cases q.parse_numrange range max <;> simp [pexec_pure, pexec_throw]

/-- The pending file name is alone and nothing more is given: the spec is recorded. -/
theorem pexec_argPagesPositional_end (q : QUtil) (s : ArgParser) (file : String)
    (hacc : s.accumulated_args = [file]) :
    (argPagesPositional q none).exec s =
      (.ok (), { s with
        o := { s.o with page_specs := s.o.page_specs ++ [⟨file, s.pages_password, "1-z"⟩] },
        accumulated_args := [], pages_password := none }) := by
  unfold argPagesPositional
  simp [pexec_bind, pexec_get, pexec_modify, pexec_pure, pexec_accumulated_args_at, hacc]

theorem pexec_argPagesPositional_first (q : QUtil) (s : ArgParser) (a : String)
    (hacc : s.accumulated_args = []) :
    (argPagesPositional q (some a)).exec s =
      (.ok (), { s with accumulated_args := [a] }) := by
  unfold argPagesPositional
  simp [pexec_bind, pexec_get, pexec_modify, pexec_pure, pexec_accumulated_args_at, hacc]

theorem pexec_argPagesPositional_empty_end (q : QUtil) (s : ArgParser)
    (hacc : s.accumulated_args = []) :
    (argPagesPositional q none).exec s = (.ok (), s) := by
  unfold argPagesPositional
  simp [pexec_bind, pexec_get, pexec_pure, hacc]

/-- The argument after the pending file name is a valid range: it is recorded. -/
theorem pexec_argPagesPositional_range (q : QUtil) (s : ArgParser) (file r : String)
    (pages : List Int) (hacc : s.accumulated_args = [file])
    (hr : q.parse_numrange r 0 = .ok pages) :
    (argPagesPositional q (some r)).exec s =
      (.ok (), { s with
        o := { s.o with page_specs := s.o.page_specs ++ [⟨file, s.pages_password, r⟩] },
        accumulated_args := [], pages_password := none }) := by
  unfold argPagesPositional
  simp [pexec_bind, pexec_get, pexec_modify, pexec_pure, pexec_accumulated_args_at, hacc,
    pexec_tryCatch, pexec_map, pexec_parseNumrange_true, hr]

/-- The argument after the pending file name is not a range but names the input
or a file: the range is taken as `1-z` and the argument is the next file name. -/
theorem pexec_argPagesPositional_next_file (q : QUtil) (s : ArgParser) (file r what : String)
    (hacc : s.accumulated_args = [file])
    (hr : q.parse_numrange r 0 = .error what)
    (hfile : r = "." ∨ q.file_can_be_opened r = true) :
    (argPagesPositional q (some r)).exec s =
      (.ok (), { s with
        o := { s.o with page_specs := s.o.page_specs ++ [⟨file, s.pages_password, "1-z"⟩] },
        accumulated_args := [r], pages_password := none }) := by
  unfold argPagesPositional
  by_cases hdot : r = "."
  · subst hdot
    simp [pexec_bind, pexec_get, pexec_modify, pexec_pure, pexec_accumulated_args_at, hacc,
      pexec_tryCatch, pexec_map, pexec_parseNumrange_true, hr]
  · have h : q.file_can_be_opened r = true := hfile.resolve_left hdot
    simp [pexec_bind, pexec_get, pexec_modify, pexec_pure, pexec_accumulated_args_at, hacc,
      pexec_tryCatch, pexec_map, pexec_parseNumrange_true, hr, h, hdot]

/-- The argument after the pending file name is neither: the range error. -/
theorem pexec_argPagesPositional_bad (q : QUtil) (s : ArgParser) (file r what : String)
    (hacc : s.accumulated_args = [file])
    (hr : q.parse_numrange r 0 = .error what)
    (hdot : r ≠ ".") (hfile : q.file_can_be_opened r = false) :
    (argPagesPositional q (some r)).exec s =
      (.error (.Usage what), { s with accumulated_args := [file, r] }) := by
  unfold argPagesPositional
  simp [pexec_bind, pexec_get, pexec_modify, pexec_pure, pexec_accumulated_args_at, hacc,
    pexec_tryCatch, pexec_map, pexec_parseNumrange_true, hr, hdot, hfile,
    pexec_usage]

theorem pexec_argPages (s : ArgParser) :
    argPages.exec s =
      if s.o.page_specs = [] then
        (.ok (), { s with accumulated_args := [], ap := { s.ap with option_table := .O_PAGES } })
      else (.error (.Usage "the --pages may only be specified one time"), s) := by
  unfold argPages
  cases h : s.o.page_specs <;>
    simp [pexec_bind, pexec_get, pexec_modify, pexec_pure, pexec_usage, h,
      pexec_selectOptionTable]

theorem pexec_argPagesPassword (parameter : String) (s : ArgParser) :
    (argPagesPassword parameter).exec s =
      if s.pages_password.isSome then
        (.error (.Usage "--password already specified for this file"), s)
      else if s.accumulated_args.length ≠ 1 then
        (.error (.Usage "in --pages, --password must immediately follow a file name"), s)
      else (.ok (), { s with pages_password := some parameter }) := by
  unfold argPagesPassword
  cases h : s.pages_password <;> by_cases hl : s.accumulated_args.length = 1 <;>
    simp [pexec_bind, pexec_get, pexec_modify, pexec_pure, pexec_usage, h, hl]

theorem pexec_argEndPages (q : QUtil) (s : ArgParser) :
    (argEndPages q).exec s =
      match (argPagesPositional q none).exec s with
      | (.ok (), s1) =>
        if s1.o.page_specs = [] then
          (.error (.Usage "--pages: no page specifications given"), s1)
        else (.ok (), s1)
      | (.error e, s1) => (.error e, s1) := by
  unfold argEndPages
  rw [pexec_bind]
  rcases (argPagesPositional q none).exec s with ⟨r, s1⟩
  cases r with
  | error e => rfl
  | ok u =>
    cases h : s1.o.page_specs <;>
      simp [pexec_bind, pexec_get, pexec_pure, pexec_usage, h]

end ArgParser

namespace ArgParser

theorem pexec_argEncrypt (s : ArgParser) :
    ∃ ap1, argEncrypt.exec s = (.ok (), { s with accumulated_args := [], ap := ap1 }) ∧
      ap1.option_table = .O_ENCRYPTION := by
  unfold argEncrypt
  cases hc : s.ap.completing <;> by_cases hl : s.ap.args_left = 0 <;>
    simp only [pexec_bind, pexec_get, pexec_modify, pexec_pure, pexec_selectOptionTable,
      pexec_insertCompletion, hc, hl, beq_self_eq_true, Bool.and_true, Bool.and_false,
      Bool.false_and, Bool.true_and, if_true, if_false, Bool.false_eq_true, beq_iff_eq] <;>
    exact ⟨_, rfl, rfl⟩

/-- Fewer than three arguments accumulated: nothing but the argument list and
the completions changes. -/
theorem pexec_argEncPositional_short (arg : String) (s : ArgParser)
    (hlen : s.accumulated_args.length < 2) :
    ∃ ap1, (argEncPositional arg).exec s =
      (.ok (), { s with accumulated_args := s.accumulated_args ++ [arg], ap := ap1 }) := by
  unfold argEncPositional
  have hshape : s.accumulated_args = [] ∨ ∃ x, s.accumulated_args = [x] := by
    cases h : s.accumulated_args with
    | nil => exact Or.inl rfl
    | cons x rest =>
      cases rest with
      | nil => exact Or.inr ⟨x, rfl⟩
      | cons y rest => rw [h] at hlen; simp at hlen; omega
  rcases hshape with h | ⟨x, h⟩ <;>
    cases hc : s.ap.completing <;> by_cases hl : s.ap.args_left = 0 <;>
    simp [pexec_bind, pexec_get, pexec_modify, pexec_pure, pexec_insertCompletion, hc, hl, h] <;>
    exact ⟨_, rfl⟩

/-- The third argument: the passwords are assigned, then the key length is read. -/
theorem pexec_argEncPositional_third (arg u w : String) (s : ArgParser)
    (hacc : s.accumulated_args = [u, w]) :
    (argEncPositional arg).exec s =
      if arg = "40" then
        (.ok (), { s with
          accumulated_args := [u, w, arg],
          o := { s.o with user_password := u, owner_password := w, keylen := 40 },
          ap := { s.ap with option_table := .O_40_BIT_ENCRYPTION } })
      else if arg = "128" then
        (.ok (), { s with
          accumulated_args := [u, w, arg],
          o := { s.o with user_password := u, owner_password := w, keylen := 128 },
          ap := { s.ap with option_table := .O_128_BIT_ENCRYPTION } })
      else if arg = "256" then
        (.ok (), { s with
          accumulated_args := [u, w, arg],
          o := { s.o with user_password := u, owner_password := w, keylen := 256,
                          use_aes := true },
          ap := { s.ap with option_table := .O_256_BIT_ENCRYPTION } })
      else
        (.error (.Usage "encryption key length must be 40, 128, or 256"),
          { s with accumulated_args := [u, w, arg],
                   o := { s.o with user_password := u, owner_password := w } }) := by
  unfold argEncPositional
  simp only [pexec_bind, pexec_get, pexec_modify, pexec_pure, pexec_accumulated_args_at, hacc,
    beq_iff_eq]
  split_ifs <;>
    simp_all [pexec_bind, pexec_get, pexec_modify, pexec_pure, pexec_accumulated_args_at,
      pexec_selectOptionTable, pexec_usage]

end ArgParser

/-! ## Decode level and encryption arguments -/

/-- C11: the decode level has the four tiers none, generalized, specialized and
all, in strictly increasing order; `argDecodeLevel` maps the four names to the
four tiers, distinct names to distinct tiers, and for any other parameter it
throws the usage error "invalid option" and leaves `decode_level` as it was. -/
theorem argDecodeLevel_four_tiers (s : ArgParser) (parameter : String)
    (hother : parameter ≠ "none" ∧ parameter ≠ "generalized" ∧ parameter ≠ "specialized" ∧
      parameter ≠ "all") :
    (∀ l : qpdf_stream_decode_level_e,
      l = .qpdf_dl_none ∨ l = .qpdf_dl_generalized ∨ l = .qpdf_dl_specialized ∨
        l = .qpdf_dl_all) ∧
    (qpdf_stream_decode_level_e.qpdf_dl_none.rank <
        qpdf_stream_decode_level_e.qpdf_dl_generalized.rank ∧
      qpdf_stream_decode_level_e.qpdf_dl_generalized.rank <
        qpdf_stream_decode_level_e.qpdf_dl_specialized.rank ∧
      qpdf_stream_decode_level_e.qpdf_dl_specialized.rank <
        qpdf_stream_decode_level_e.qpdf_dl_all.rank) ∧
    (ArgParser.argDecodeLevel "none").exec s =
      (.ok (), { s with
        o := { s.o with decode_level_set := true, decode_level := .qpdf_dl_none } }) ∧
    (ArgParser.argDecodeLevel "generalized").exec s =
      (.ok (), { s with
        o := { s.o with decode_level_set := true, decode_level := .qpdf_dl_generalized } }) ∧
    (ArgParser.argDecodeLevel "specialized").exec s =
      (.ok (), { s with
        o := { s.o with decode_level_set := true, decode_level := .qpdf_dl_specialized } }) ∧
    (ArgParser.argDecodeLevel "all").exec s =
      (.ok (), { s with
        o := { s.o with decode_level_set := true, decode_level := .qpdf_dl_all } }) ∧
    (∀ p1 p2 : String, p1 ∈ ["none", "generalized", "specialized", "all"] →
      p2 ∈ ["none", "generalized", "specialized", "all"] →
      ((ArgParser.argDecodeLevel p1).exec s).2.o.decode_level =
        ((ArgParser.argDecodeLevel p2).exec s).2.o.decode_level → p1 = p2) ∧
    ((ArgParser.argDecodeLevel parameter).exec s).1 = .error (.Usage "invalid option") ∧
    ((ArgParser.argDecodeLevel parameter).exec s).2.o.decode_level = s.o.decode_level := by
  obtain ⟨h1, h2, h3, h4⟩ := hother
  refine ⟨fun l => by cases l <;> simp, by decide, ?_, ?_, ?_, ?_, ?_, ?_, ?_⟩
  · rw [ArgParser.pexec_argDecodeLevel]; simp
  · rw [ArgParser.pexec_argDecodeLevel]; simp
  · rw [ArgParser.pexec_argDecodeLevel]; simp
  · rw [ArgParser.pexec_argDecodeLevel]; simp
  · intro p1 p2 hp1 hp2
    simp only [List.mem_cons, List.mem_singleton, List.not_mem_nil, or_false] at hp1 hp2
    rcases hp1 with rfl | rfl | rfl | rfl <;> rcases hp2 with rfl | rfl | rfl | rfl <;>
      simp [ArgParser.pexec_argDecodeLevel]
  · simp [ArgParser.pexec_argDecodeLevel, h1, h2, h3, h4]
  · simp [ArgParser.pexec_argDecodeLevel, h1, h2, h3, h4]

/-- Witness of C11: the parameter "most" is none of the four names. -/
theorem argDecodeLevel_four_tiers_witness :
    (("most" : String) ≠ "none" ∧ ("most" : String) ≠ "generalized" ∧
      ("most" : String) ≠ "specialized" ∧ ("most" : String) ≠ "all") ∧
    (ArgParser.argDecodeLevel "all").exec exampleParser =
      (.ok (), { exampleParser with
        o := { exampleParser.o with decode_level_set := true, decode_level := .qpdf_dl_all } }) ∧
    ((ArgParser.argDecodeLevel "most").exec exampleParser).1 = .error (.Usage "invalid option") ∧
    ((ArgParser.argDecodeLevel "most").exec exampleParser).2.o.decode_level =
      exampleParser.o.decode_level :=
  ⟨by decide,
    (argDecodeLevel_four_tiers exampleParser "most" (by decide)).2.2.2.2.2.1,
    (argDecodeLevel_four_tiers exampleParser "most" (by decide)).2.2.2.2.2.2.2⟩

/-- C15: while fewer than three positional arguments have accumulated,
`argEncPositional` returns and leaves the job as it was; after `argEncrypt` and
two arguments `u`, `w` the job is still as it was, and the third argument makes
`u` and `w` the user and owner passwords and must be "40", "128" or "256": the
key length becomes 40, 128 or 256, with `use_aes` set for 256 only, and any
other third argument throws the usage error and leaves the key length alone. -/
theorem argEncPositional_key_length (s : ArgParser) (arg u w : String)
    (hlen : s.accumulated_args.length < 2) :
    ((ArgParser.argEncPositional arg).exec s).1 = .ok () ∧
    ((ArgParser.argEncPositional arg).exec s).2.o = s.o ∧
    ((ArgParser.argEncPositional arg).exec s).2.accumulated_args =
      s.accumulated_args ++ [arg] ∧
    (∃ s2, (do ArgParser.argEncrypt
               ArgParser.argEncPositional u
               ArgParser.argEncPositional w : P Unit).exec s = (.ok (), s2) ∧
      s2.o = s.o ∧ s2.accumulated_args = [u, w] ∧
      (∀ k : Int, (arg = "40" ∧ k = 40) ∨ (arg = "128" ∧ k = 128) ∨ (arg = "256" ∧ k = 256) →
        ((ArgParser.argEncPositional arg).exec s2).1 = .ok () ∧
        ((ArgParser.argEncPositional arg).exec s2).2.o =
          { s.o with user_password := u, owner_password := w, keylen := k,
                     use_aes := if arg = "256" then true else s.o.use_aes }) ∧
      (arg ≠ "40" → arg ≠ "128" → arg ≠ "256" →
        ((ArgParser.argEncPositional arg).exec s2).1 =
          .error (.Usage "encryption key length must be 40, 128, or 256") ∧
        ((ArgParser.argEncPositional arg).exec s2).2.o.keylen = s.o.keylen ∧
        ((ArgParser.argEncPositional arg).exec s2).2.o.use_aes = s.o.use_aes)) := by
  obtain ⟨ap1, h1⟩ := ArgParser.pexec_argEncPositional_short arg s hlen
  refine ⟨by rw [h1], by rw [h1], by rw [h1], ?_⟩
  obtain ⟨apa, ha, -⟩ := ArgParser.pexec_argEncrypt s
  obtain ⟨apb, hb⟩ := ArgParser.pexec_argEncPositional_short u
    { s with accumulated_args := [], ap := apa } (by simp)
  obtain ⟨apc, hc⟩ := ArgParser.pexec_argEncPositional_short w
    { s with accumulated_args := [u], ap := apb } (by simp)
  simp only [List.nil_append] at hb
  simp only [List.singleton_append] at hc
  refine ⟨{ s with accumulated_args := [u, w], ap := apc }, ?_, rfl, rfl, ?_, ?_⟩
  · simp only [ArgParser.pexec_bind, ha, hb, hc]
  · intro k hk
    rw [ArgParser.pexec_argEncPositional_third arg u w _ rfl]
    rcases hk with ⟨rfl, rfl⟩ | ⟨rfl, rfl⟩ | ⟨rfl, rfl⟩ <;> simp
  · intro h40 h128 h256
    rw [ArgParser.pexec_argEncPositional_third arg u w _ rfl]
    simp [h40, h128, h256]

/-- Witness of C15 on the example parser: the passwords "user" and "owner", then
the key length "256". -/
theorem argEncPositional_key_length_witness :
    exampleParser.accumulated_args.length < 2 ∧
    ((ArgParser.argEncPositional "256").exec exampleParser).2.o = exampleParser.o ∧
    (∃ s2, (do ArgParser.argEncrypt
               ArgParser.argEncPositional "user"
               ArgParser.argEncPositional "owner" : P Unit).exec exampleParser = (.ok (), s2) ∧
      s2.o = exampleParser.o ∧ s2.accumulated_args = ["user", "owner"] ∧
      (∀ k : Int, (("256" : String) = "40" ∧ k = 40) ∨ (("256" : String) = "128" ∧ k = 128) ∨
          (("256" : String) = "256" ∧ k = 256) →
        ((ArgParser.argEncPositional "256").exec s2).1 = .ok () ∧
        ((ArgParser.argEncPositional "256").exec s2).2.o =
          { exampleParser.o with
            user_password := "user", owner_password := "owner", keylen := k,
            use_aes := if ("256" : String) = "256" then true else exampleParser.o.use_aes }) ∧
      ((("256" : String) ≠ "40") → (("256" : String) ≠ "128") → (("256" : String) ≠ "256") →
        ((ArgParser.argEncPositional "256").exec s2).1 =
          .error (.Usage "encryption key length must be 40, 128, or 256") ∧
        ((ArgParser.argEncPositional "256").exec s2).2.o.keylen = exampleParser.o.keylen ∧
        ((ArgParser.argEncPositional "256").exec s2).2.o.use_aes = exampleParser.o.use_aes)) :=
  ⟨by decide,
    (argEncPositional_key_length exampleParser "256" "user" "owner" (by decide)).2.1,
    (argEncPositional_key_length exampleParser "256" "user" "owner" (by decide)).2.2.2⟩

namespace ArgParser

theorem pexec_parseRotationParameter (q : QUtil) (parameter : String) (s : ArgParser) :
    (parseRotationParameter q parameter).exec s =
      if (q.parse_numrange (rotationParts parameter).2.1 0).isOk = true ∧
          (rotationParts parameter).1 ∈ ["0", "90", "180", "270"] then
        (.ok (), { s with
          o := { s.o with
            rotations := Function.update s.o.rotations (rotationParts parameter).2.1
              (some ⟨if (rotationParts parameter).2.2 = -1
                      then -q.string_to_int (rotationParts parameter).1
                      else q.string_to_int (rotationParts parameter).1,
                    (rotationParts parameter).2.2 != 0⟩) } })
      else (.error (.Usage ("invalid parameter to rotate: " ++ parameter)), s) := by
  unfold parseRotationParameter
  generalize rotationParts parameter = parts
  obtain ⟨angle_str, range, relative⟩ := parts
  simp only [pexec_bind, pexec_pure, pexec_tryCatch, pexec_parseNumrange_true]
  cases hp : q.parse_numrange range 0 with
  | error what =>
    simp [pexec_pure, pexec_usage, Except.isOk, Except.toBool]
  | ok pages =>
    by_cases ha : angle_str ∈ ["0", "90", "180", "270"]
    · have ha1 : (angle_str == "0" || angle_str == "90" || angle_str == "180" ||
          angle_str == "270") = true := by
        simp at ha ⊢
        tauto
      simp [pexec_pure, pexec_modify, Except.isOk, Except.toBool, ha, ha1]
    · have ha1 : (angle_str == "0" || angle_str == "90" || angle_str == "180" ||
          angle_str == "270") = false := by
        simp at ha ⊢
        tauto
      simp [pexec_pure, pexec_usage, Except.isOk, Except.toBool, ha, ha1]

end ArgParser

namespace ArgParser

theorem string_find_some (c : Char) :
    ∀ (d : List Char) (k : Nat), string_find d c = some k →
      d = d.take k ++ c :: d.drop (k + 1) := by
  intro d
  induction d with
  | nil => intro k h; simp [string_find] at h
  | cons x xs ih =>
    intro k h
    unfold string_find at h
    by_cases hx : x = c
    · simp only [hx, if_true, Option.some.injEq] at h
      subst h
      simp [hx]
    · simp only [hx, if_false, Option.map_eq_some'] at h
      obtain ⟨j, hj, rfl⟩ := h
      have := ih j hj
      simp only [List.take_succ_cons, List.drop_succ_cons, List.cons_append]
      rw [← this]

theorem string_find_lt (c : Char) :
    ∀ (d : List Char) (k : Nat), string_find d c = some k → k < d.length := by
  intro d
  induction d with
  | nil => intro k h; simp [string_find] at h
  | cons x xs ih =>
    intro k h
    unfold string_find at h
    by_cases hx : x = c
    · simp only [hx, if_true, Option.some.injEq] at h
      subst h
      simp
    · simp only [hx, if_false, Option.map_eq_some'] at h
      obtain ⟨j, hj, rfl⟩ := h
      have := ih j hj
      simp
      omega

/-- A prefix without `c` followed by `c`: the first `c` is right after the prefix. -/
theorem string_find_append (c : Char) (r : List Char) :
    ∀ (pre : List Char), c ∉ pre → string_find (pre ++ c :: r) c = some pre.length := by
  intro pre
  induction pre with
  | nil => intro _; simp [string_find]
  | cons x xs ih =>
    intro h
    simp only [List.mem_cons, not_or] at h
    have hx : ¬ x = c := fun e => h.1 e.symm
    simp [string_find, hx, ih h.2]

theorem string_find_none (c : Char) :
    ∀ (d : List Char), c ∉ d → string_find d c = none := by
  intro d
  induction d with
  | nil => intro _; rfl
  | cons x xs ih =>
    intro h
    simp only [List.mem_cons, not_or] at h
    have hx : ¬ x = c := fun e => h.1 e.symm
    simp [string_find, hx, ih h.2]

end ArgParser

namespace ArgParser

/-- The sign as the source encodes it in `relative`. -/
theorem rotationParts_text (f : RotationForm) (hf : f.wellFormed) :
    rotationParts f.text =
      (f.angle, f.rangeText,
        match f.sign with
        | some '-' => -1
        | some _ => 1
        | none => 0) := by
  obtain ⟨sign, angle, range⟩ := f
  obtain ⟨hs, ha⟩ := hf
  simp only [List.mem_cons, List.mem_singleton, List.not_mem_nil, or_false] at ha hs
  cases range with
  | none =>
    rcases hs with rfl | rfl | rfl <;> rcases ha with rfl | rfl | rfl | rfl <;>
      simp [rotationParts, rotationSplit, rotationSign, RotationForm.text, RotationForm.rangeText, string_find,
        QUtil.is_digit, String.substr, String.substr_n] <;> rfl
  | some r =>
    obtain ⟨rd⟩ := r
    cases rd with
    | nil =>
      rcases hs with rfl | rfl | rfl <;> rcases ha with rfl | rfl | rfl | rfl <;>
        simp [rotationParts, rotationSplit, rotationSign, RotationForm.text, RotationForm.rangeText, string_find,
          QUtil.is_digit, String.substr, String.substr_n, String.length] <;> rfl
    | cons x xs =>
      have hne : (String.mk (x :: xs) = "") = False := by
        simp [String.ext_iff]
      rcases hs with rfl | rfl | rfl <;> rcases ha with rfl | rfl | rfl | rfl <;>
        simp [rotationParts, rotationSplit, rotationSign, RotationForm.text, RotationForm.rangeText, string_find,
          QUtil.is_digit, String.substr, String.substr_n, String.length, String.isEmpty_iff, hne]

end ArgParser

namespace ArgParser

theorem rotationSplit_mk (d : List Char) :
    rotationSplit ⟨d⟩ =
      match string_find d ':' with
      | some k => (⟨d.take k⟩, ⟨d.drop (k + 1)⟩)
      | none => (⟨d⟩, "") := by
  unfold rotationSplit
  cases h : string_find d ':' with
  | none => rfl
  | some k =>
    have hlt := string_find_lt ':' d k h
    simp only [String.substr_n, String.substr, String.length, List.drop_zero]
    by_cases hk : k > 0 <;> by_cases hl : k + 1 < d.length
    · simp [hk, hl]
    · have : d.drop (k + 1) = [] := List.drop_eq_nil_of_le (by omega)
      simp [hk, hl, this]
    · have hk0 : k = 0 := by omega
      subst hk0
      simp [hl]
    · have hk0 : k = 0 := by omega
      subst hk0
      have : d.drop 1 = [] := List.drop_eq_nil_of_le (by omega)
      simp [hl, this]

theorem rotationSign_spec (h : List Char)
    (hin : (rotationSign ⟨h⟩).2 ∈ ["0", "90", "180", "270"]) :
    ∃ sign : Option Char, (sign = none ∨ sign = some '+' ∨ sign = some '-') ∧
      h = (match sign with
            | some c => [c]
            | none => []) ++ (rotationSign ⟨h⟩).2.data ∧
      (rotationSign ⟨h⟩).1 =
        (match sign with
          | some '-' => -1
          | some _ => 1
          | none => 0) := by
  unfold rotationSign at hin ⊢
  cases h with
  | nil => simp at hin
  | cons first rest =>
    simp only at hin ⊢
    by_cases h1 : first = '+'
    · subst h1
      exact ⟨some '+', Or.inr (Or.inl rfl), by simp [String.substr], by simp⟩
    · by_cases h2 : first = '-'
      · subst h2
        exact ⟨some '-', Or.inr (Or.inr rfl), by simp [String.substr], by simp⟩
      · by_cases h3 : QUtil.is_digit first = true
        · exact ⟨none, Or.inl rfl, by simp [h1, h2, h3], by simp [h1, h2, h3]⟩
        · simp [h1, h2, h3] at hin

end ArgParser

namespace ArgParser

/-- A parameter whose angle text passes the test of the source is of the form
of the claim, and the source reads the same angle, range and sign from it. -/
theorem rotationParts_spec (parameter : String)
    (hin : (rotationParts parameter).1 ∈ ["0", "90", "180", "270"]) :
    ∃ f : RotationForm, f.wellFormed ∧ parameter = f.text ∧
      rotationParts parameter =
        (f.angle, f.rangeText,
          match f.sign with
          | some '-' => -1
          | some _ => 1
          | none => 0) := by
  obtain ⟨d⟩ := parameter
  unfold rotationParts at hin ⊢
  rw [rotationSplit_mk] at hin ⊢
  cases hc : string_find d ':' with
  | none =>
    simp only [hc] at hin ⊢
    obtain ⟨sign, hsign, hd, hrel⟩ := rotationSign_spec d hin
    refine ⟨⟨sign, (rotationSign ⟨d⟩).2, none⟩, ⟨hsign, hin⟩, ?_, ?_⟩
    · simp only [RotationForm.text, List.append_nil]
      rw [← hd]
    · simp only [RotationForm.rangeText, hrel]
      rfl
  | some k =>
    simp only [hc] at hin ⊢
    obtain ⟨sign, hsign, hd, hrel⟩ := rotationSign_spec (d.take k) hin
    refine ⟨⟨sign, (rotationSign ⟨d.take k⟩).2, some ⟨d.drop (k + 1)⟩⟩, ⟨hsign, hin⟩, ?_, ?_⟩
    · simp only [RotationForm.text]
      rw [← hd, ← string_find_some ':' d k hc]
    · simp only [RotationForm.rangeText, hrel, String.isEmpty_iff]

end ArgParser

/-! ## Rotation parameters -/

/-- C12: a parameter written as `[+|-]angle[:range]` with the angle text "0", "90",
"180" or "270" is accepted when its range, `1-z` if there is no colon or
nothing after it, is a valid numeric range: the rotation stored under that
range has the parsed angle, negated exactly for the sign `-`, and is relative
exactly when there is a sign.  With an invalid range, and for every parameter
that is not of that form with a valid range, `parseRotationParameter` throws
"invalid parameter to rotate: " followed by the parameter and leaves the parser
object, the rotations included, as it was; so it returns exactly on the
parameters of that form with a valid range. -/
theorem parseRotationParameter_form (q : QUtil) (s : ArgParser) (f : RotationForm)
    (hf : f.wellFormed) :
    ((q.parse_numrange f.rangeText 0).isOk = true →
      (ArgParser.parseRotationParameter q f.text).exec s =
        (.ok (), { s with
          o := { s.o with
            rotations := Function.update s.o.rotations f.rangeText (some (f.spec q)) } })) ∧
    ((q.parse_numrange f.rangeText 0).isOk = false →
      (ArgParser.parseRotationParameter q f.text).exec s =
        (.error (.Usage ("invalid parameter to rotate: " ++ f.text)), s)) ∧
    (∀ parameter : String,
      (¬ ∃ g : RotationForm, g.wellFormed ∧ parameter = g.text ∧
          (q.parse_numrange g.rangeText 0).isOk = true) →
      (ArgParser.parseRotationParameter q parameter).exec s =
        (.error (.Usage ("invalid parameter to rotate: " ++ parameter)), s)) ∧
    (∀ parameter : String,
      ((ArgParser.parseRotationParameter q parameter).exec s).1 = .ok () ↔
        ∃ g : RotationForm, g.wellFormed ∧ parameter = g.text ∧
          (q.parse_numrange g.rangeText 0).isOk = true) := by
  have hacc : ∀ g : RotationForm, g.wellFormed →
      (q.parse_numrange g.rangeText 0).isOk = true →
      (ArgParser.parseRotationParameter q g.text).exec s =
        (.ok (), { s with
          o := { s.o with
            rotations := Function.update s.o.rotations g.rangeText (some (g.spec q)) } }) := by
    intro g hg hv
    rw [ArgParser.pexec_parseRotationParameter, ArgParser.rotationParts_text g hg]
    simp only [hv, hg.2, and_self, if_true]
    obtain ⟨sign, angle, range⟩ := g
    rcases hg.1 with h | h | h <;> simp only at h <;> subst h <;>
      simp [RotationForm.spec]
  have hrej : ∀ parameter : String,
      (¬ ∃ g : RotationForm, g.wellFormed ∧ parameter = g.text ∧
          (q.parse_numrange g.rangeText 0).isOk = true) →
      (ArgParser.parseRotationParameter q parameter).exec s =
        (.error (.Usage ("invalid parameter to rotate: " ++ parameter)), s) := by
    intro parameter hno
    rw [ArgParser.pexec_parseRotationParameter]
    rw [if_neg]
    rintro ⟨hv, hin⟩
    obtain ⟨g, hg, hp, hparts⟩ := ArgParser.rotationParts_spec parameter hin
    rw [hparts] at hv
    exact hno ⟨g, hg, hp, hv⟩
  refine ⟨hacc f hf, ?_, hrej, ?_⟩
  · intro hv
    rw [ArgParser.pexec_parseRotationParameter, ArgParser.rotationParts_text f hf]
    simp [hv]
  · intro parameter
    constructor
    · intro hok
      by_contra hno
      rw [hrej parameter hno] at hok
      simp at hok
    · rintro ⟨g, hg, rfl, hv⟩
      rw [hacc g hg hv]

/-- Witness of C12: `-90:1-3` stores the relative rotation by -90 under `1-3`. -/
theorem parseRotationParameter_form_witness :
    (RotationForm.mk (some '-') "90" (some "1-3")).wellFormed ∧
    (RotationForm.mk (some '-') "90" (some "1-3")).text = "-90:1-3" ∧
    (RotationForm.mk (some '-') "90" (some "1-3")).rangeText = "1-3" ∧
    (RotationForm.mk (some '-') "90" (some "1-3")).spec exampleQUtil = ⟨-90, true⟩ ∧
    ((exampleQUtil.parse_numrange
        (RotationForm.mk (some '-') "90" (some "1-3")).rangeText 0).isOk = true →
      (ArgParser.parseRotationParameter exampleQUtil
          (RotationForm.mk (some '-') "90" (some "1-3")).text).exec exampleParser =
        (.ok (), { exampleParser with
          o := { exampleParser.o with
            rotations := Function.update exampleParser.o.rotations
              (RotationForm.mk (some '-') "90" (some "1-3")).rangeText
              (some ((RotationForm.mk (some '-') "90" (some "1-3")).spec exampleQUtil)) } })) :=
  ⟨⟨Or.inr (Or.inr rfl), by decide⟩, by decide, by decide, by decide,
    (parseRotationParameter_form exampleQUtil exampleParser ⟨some '-', "90", some "1-3"⟩
      ⟨Or.inr (Or.inr rfl), by decide⟩).1⟩

namespace ArgParser

/-- Whatever is accumulated, `argPagesPositional` only ever appends to `page_specs`. -/
theorem page_specs_argPagesPositional (q : QUtil) (arg : Option String) (s : ArgParser) :
    ∃ added, ((argPagesPositional q arg).exec s).2.o.page_specs = s.o.page_specs ++ added := by
  unfold argPagesPositional
  cases arg with
  | none =>
    cases hacc : s.accumulated_args with
    | nil =>
      exact ⟨[], by simp [pexec_bind, pexec_get, pexec_pure, hacc]⟩
    | cons file rest =>
      cases rest with
      | nil =>
        exact ⟨[⟨file, s.pages_password, "1-z"⟩], by
          simp [pexec_bind, pexec_get, pexec_modify, pexec_pure, pexec_accumulated_args_at, hacc]⟩
      | cons r rest =>
        cases hp : q.parse_numrange r 0 with
        | ok pages =>
          exact ⟨[⟨file, s.pages_password, r⟩], by
            simp [pexec_bind, pexec_get, pexec_modify, pexec_pure, pexec_accumulated_args_at,
              hacc, pexec_tryCatch, pexec_parseNumrange_true, pexec_map, hp]⟩
        | error what =>
          by_cases hdot : r = "."
          · exact ⟨[⟨file, s.pages_password, "1-z"⟩], by
              subst hdot
              simp [pexec_bind, pexec_get, pexec_modify, pexec_pure, pexec_accumulated_args_at,
                hacc, pexec_tryCatch, pexec_parseNumrange_true, pexec_map, hp]⟩
          · cases hf : q.file_can_be_opened r with
            | true =>
              exact ⟨[⟨file, s.pages_password, "1-z"⟩], by
                simp [pexec_bind, pexec_get, pexec_modify, pexec_pure,
                  pexec_accumulated_args_at, hacc, pexec_tryCatch, pexec_parseNumrange_true, pexec_map, hp,
                  hdot, hf]⟩
            | false =>
              exact ⟨[], by
                simp [pexec_bind, pexec_get, pexec_modify, pexec_pure,
                  pexec_accumulated_args_at, hacc, pexec_tryCatch, pexec_parseNumrange_true, pexec_map, hp,
                  hdot, hf, pexec_usage]⟩
  | some a =>
    cases hacc : s.accumulated_args with
    | nil =>
      exact ⟨[], by
        simp [pexec_bind, pexec_get, pexec_modify, pexec_pure, pexec_accumulated_args_at, hacc]⟩
    | cons file rest =>
      have hshape : ∃ r rest2, rest ++ [a] = r :: rest2 := by
        cases rest with
        | nil => exact ⟨a, [], rfl⟩
        | cons r rest2 => exact ⟨r, rest2 ++ [a], rfl⟩
      obtain ⟨r, rest2, hrest⟩ := hshape
      cases hp : q.parse_numrange r 0 with
      | ok pages =>
        exact ⟨[⟨file, s.pages_password, r⟩], by
          simp [pexec_bind, pexec_get, pexec_modify, pexec_pure, pexec_accumulated_args_at,
            hacc, hrest, pexec_tryCatch, pexec_parseNumrange_true, pexec_map, hp]⟩
      | error what =>
        by_cases hdot : r = "."
        · exact ⟨[⟨file, s.pages_password, "1-z"⟩], by
            subst hdot
            simp [pexec_bind, pexec_get, pexec_modify, pexec_pure, pexec_accumulated_args_at,
              hacc, hrest, pexec_tryCatch, pexec_parseNumrange_true, pexec_map, hp]⟩
        · cases hf : q.file_can_be_opened r with
          | true =>
            exact ⟨[⟨file, s.pages_password, "1-z"⟩], by
              simp [pexec_bind, pexec_get, pexec_modify, pexec_pure,
                pexec_accumulated_args_at, hacc, hrest, pexec_tryCatch, pexec_map,
                pexec_parseNumrange_true, pexec_map, hp, hdot, hf]⟩
          | false =>
            exact ⟨[], by
              simp [pexec_bind, pexec_get, pexec_modify, pexec_pure,
                pexec_accumulated_args_at, hacc, hrest, pexec_tryCatch, pexec_map,
                pexec_parseNumrange_true, pexec_map, hp, hdot, hf, pexec_usage]⟩

end ArgParser

namespace ArgParser

theorem page_specs_argEncPositional (arg : String) (s : ArgParser) :
    ((argEncPositional arg).exec s).2.o.page_specs = s.o.page_specs := by
  cases hacc : s.accumulated_args with
  | nil =>
    obtain ⟨ap1, h⟩ := pexec_argEncPositional_short arg s (by simp [hacc])
    rw [h]
  | cons x rest =>
    cases rest with
    | nil =>
      obtain ⟨ap1, h⟩ := pexec_argEncPositional_short arg s (by simp [hacc])
      rw [h]
    | cons y rest =>
      have hshape : ∃ z rest2, rest ++ [arg] = z :: rest2 := by
        cases rest with
        | nil => exact ⟨arg, [], rfl⟩
        | cons z rest2 => exact ⟨z, rest2 ++ [arg], rfl⟩
      obtain ⟨z, rest2, hrest⟩ := hshape
      have hn : ¬ (rest2.length + 1 + 1 + 1 < 3) := by omega
      unfold argEncPositional
      simp only [pexec_bind, pexec_get, pexec_modify, pexec_pure, pexec_accumulated_args_at, hacc,
        beq_iff_eq, List.cons_append, hrest, List.length_cons, hn, if_false]
      by_cases h1 : z = "40"
      · simp [pexec_bind, pexec_get, pexec_modify, pexec_pure, pexec_accumulated_args_at,
          pexec_selectOptionTable, pexec_usage, h1]
      · by_cases h2 : z = "128"
        · simp [pexec_bind, pexec_get, pexec_modify, pexec_pure, pexec_accumulated_args_at,
            pexec_selectOptionTable, pexec_usage, h2]
        · by_cases h3 : z = "256"
          · simp [pexec_bind, pexec_get, pexec_modify, pexec_pure, pexec_accumulated_args_at,
              pexec_selectOptionTable, pexec_usage, h3]
          · simp [pexec_bind, pexec_get, pexec_modify, pexec_pure, pexec_accumulated_args_at,
              pexec_selectOptionTable, pexec_usage, h1, h2, h3]

/-- Every handler leaves the page specs recorded so far in place, in their
order, and at most appends to them. -/
theorem page_specs_run (q : QUtil) (h : Handler) (s : ArgParser) :
    ∃ added, ((h.run q).exec s).2.o.page_specs = s.o.page_specs ++ added := by
  cases h with
  | argEncrypt =>
    obtain ⟨ap1, h, -⟩ := pexec_argEncrypt s
    exact ⟨[], by simp [Handler.run, h]⟩
  | argEncPositional arg =>
    exact ⟨[], by simp [Handler.run, page_specs_argEncPositional]⟩
  | argPages =>
    refine ⟨[], ?_⟩
    simp only [Handler.run, pexec_argPages]
    split_ifs <;> simp
  | argPagesPassword parameter =>
    refine ⟨[], ?_⟩
    simp only [Handler.run, pexec_argPagesPassword]
    split_ifs <;> simp
  | argPagesPositional arg => exact page_specs_argPagesPositional q (some arg) s
  | argEndPages =>
    obtain ⟨added, h⟩ := page_specs_argPagesPositional q none s
    refine ⟨added, ?_⟩
    simp only [Handler.run, pexec_argEndPages]
    rcases hr : (argPagesPositional q none).exec s with ⟨r, s1⟩
    rw [hr] at h
    cases r with
    | error e => exact h
    | ok u =>
      simp only
      split_ifs <;> exact h
  | argRotate parameter =>
    refine ⟨[], ?_⟩
    simp only [Handler.run, argRotate, pexec_parseRotationParameter]
    split_ifs <;> simp
  | argDecodeLevel parameter =>
    refine ⟨[], ?_⟩
    simp only [Handler.run, pexec_argDecodeLevel]
    split_ifs <;> simp

theorem page_specs_runHandlers (q : QUtil) (hs : List Handler) :
    ∀ s : ArgParser, ∃ added, (runHandlers q hs s).o.page_specs = s.o.page_specs ++ added := by
  induction hs with
  | nil => intro s; exact ⟨[], by simp [runHandlers]⟩
  | cons h rest ih =>
    intro s
    obtain ⟨a1, h1⟩ := page_specs_run q h s
    obtain ⟨a2, h2⟩ := ih ((h.run q).exec s).2
    exact ⟨a1 ++ a2, by simp only [runHandlers]; rw [h2, h1, List.append_assoc]⟩

end ArgParser

/-! ## The `--pages` block -/

/-- C13: with the file name `file` pending, a range that is left out is taken as
`1-z`.  At the end of the arguments (`argPagesPositional` with a null argument,
as `argEndPages` calls it, also after a password) the spec `(file, password,
"1-z")` is recorded; an argument that is a valid range is recorded as the
range; an argument that is not a range but is `.` or a file that can be opened
gives the range `1-z` and stays accumulated as the next file name; any other
argument throws the range error and records nothing.  A recorded spec goes to
the end of `page_specs` with the pending password, and every call only appends. -/
theorem pages_range_omitted (q : QUtil) (s : ArgParser) (file x : String)
    (hacc : s.accumulated_args = [file]) :
    (ArgParser.argPagesPositional q none).exec s =
      (.ok (), { s with
        o := { s.o with page_specs := s.o.page_specs ++ [⟨file, s.pages_password, "1-z"⟩] },
        accumulated_args := [], pages_password := none }) ∧
    (ArgParser.argEndPages q).exec s =
      (.ok (), { s with
        o := { s.o with page_specs := s.o.page_specs ++ [⟨file, s.pages_password, "1-z"⟩] },
        accumulated_args := [], pages_password := none }) ∧
    (s.pages_password = none → ∀ password : String,
      (do ArgParser.argPagesPassword password
          ArgParser.argEndPages q : P Unit).exec s =
        (.ok (), { s with
          o := { s.o with page_specs := s.o.page_specs ++ [⟨file, some password, "1-z"⟩] },
          accumulated_args := [], pages_password := none })) ∧
    (∀ pages, q.parse_numrange x 0 = .ok pages →
      (ArgParser.argPagesPositional q (some x)).exec s =
        (.ok (), { s with
          o := { s.o with page_specs := s.o.page_specs ++ [⟨file, s.pages_password, x⟩] },
          accumulated_args := [], pages_password := none })) ∧
    (∀ what, q.parse_numrange x 0 = .error what →
      (x = "." ∨ q.file_can_be_opened x = true) →
      (ArgParser.argPagesPositional q (some x)).exec s =
        (.ok (), { s with
          o := { s.o with page_specs := s.o.page_specs ++ [⟨file, s.pages_password, "1-z"⟩] },
          accumulated_args := [x], pages_password := none })) ∧
    (∀ what, q.parse_numrange x 0 = .error what → x ≠ "." →
      q.file_can_be_opened x = false →
      ((ArgParser.argPagesPositional q (some x)).exec s).1 = .error (.Usage what) ∧
      ((ArgParser.argPagesPositional q (some x)).exec s).2.o.page_specs = s.o.page_specs) ∧
    (∀ (arg : Option String) (t : ArgParser),
      ∃ added, ((ArgParser.argPagesPositional q arg).exec t).2.o.page_specs =
        t.o.page_specs ++ added) := by
  have hend := ArgParser.pexec_argPagesPositional_end q s file hacc
  refine ⟨hend, ?_, ?_, ?_, ?_, ?_, ?_⟩
  · rw [ArgParser.pexec_argEndPages, hend]
    simp
  · intro hpw password
    rw [ArgParser.pexec_bind, ArgParser.pexec_argPagesPassword]
    simp only [hpw, hacc, Option.isSome_none, Bool.false_eq_true, if_false, List.length_singleton,
      ne_eq, not_true_eq_false]
    have h2 := ArgParser.pexec_argPagesPositional_end q
      { s with pages_password := some password } file hacc
    rw [hacc] at h2
    rw [ArgParser.pexec_argEndPages, h2]
    simp
  · intro pages hp
    exact ArgParser.pexec_argPagesPositional_range q s file x pages hacc hp
  · intro what hp hfile
    exact ArgParser.pexec_argPagesPositional_next_file q s file x what hacc hp hfile
  · intro what hp hdot hfile
    rw [ArgParser.pexec_argPagesPositional_bad q s file x what hacc hp hdot hfile]
    exact ⟨rfl, rfl⟩
  · intro arg t
    exact ArgParser.page_specs_argPagesPositional q arg t

/-- A parser object inside `--pages` with the file name `a.pdf` pending. -/
theorem pages_range_omitted_witness :
    ({ exampleParser with accumulated_args := ["a.pdf"] } : ArgParser).accumulated_args =
      ["a.pdf"] ∧
    (ArgParser.argEndPages exampleQUtil).exec
        { exampleParser with accumulated_args := ["a.pdf"] } =
      (.ok (), { exampleParser with
        o := { exampleParser.o with page_specs := [⟨"a.pdf", none, "1-z"⟩] },
        accumulated_args := [], pages_password := none }) :=
  ⟨rfl, (pages_range_omitted exampleQUtil { exampleParser with accumulated_args := ["a.pdf"] }
    "a.pdf" "b.pdf" rfl).2.1⟩

namespace ArgParser

theorem pexec_argEndPages_example :
    (argEndPages exampleQUtil).exec { exampleParser with accumulated_args := ["a.pdf"] } =
      (.ok (), { exampleParser with
        o := { exampleParser.o with page_specs := [⟨"a.pdf", none, "1-z"⟩] },
        accumulated_args := [], pages_password := none }) := by
  rw [pexec_argEndPages, pexec_argPagesPositional_end exampleQUtil _ "a.pdf" rfl]
  simp [exampleParser]

end ArgParser

/-- C14: `argPages` returns exactly when `page_specs` is empty, and then empties
the accumulated arguments and selects the pages table; otherwise it throws "the
--pages may only be specified one time" and changes nothing.  `argEndPages`
throws "--pages: no page specifications given" when no spec is recorded once
the pending file name has been dealt with.  So when `argEndPages` returns,
`page_specs` is not empty, it stays so through any later calls of the handlers,
and `argPages` throws after them. -/
theorem pages_only_once (q : QUtil) (s s1 : ArgParser) (later : List Handler)
    (hend : (ArgParser.argEndPages q).exec s = (.ok (), s1)) :
    s1.o.page_specs ≠ [] ∧
    (runHandlers q later s1).o.page_specs ≠ [] ∧
    ArgParser.argPages.exec (runHandlers q later s1) =
      (.error (.Usage "the --pages may only be specified one time"), runHandlers q later s1) ∧
    (∀ t : ArgParser, ArgParser.argPages.exec t =
      if t.o.page_specs = [] then
        (.ok (), { t with accumulated_args := [], ap := { t.ap with option_table := .O_PAGES } })
      else (.error (.Usage "the --pages may only be specified one time"), t)) ∧
    (∀ t t1 : ArgParser, (ArgParser.argPagesPositional q none).exec t = (.ok (), t1) →
      t1.o.page_specs = [] →
      (ArgParser.argEndPages q).exec t =
        (.error (.Usage "--pages: no page specifications given"), t1)) ∧
    (∀ t : ArgParser, t.o.page_specs = [] → t.accumulated_args = [] →
      (ArgParser.argEndPages q).exec t =
        (.error (.Usage "--pages: no page specifications given"), t)) := by
  have h1 : s1.o.page_specs ≠ [] := by
    rw [ArgParser.pexec_argEndPages] at hend
    rcases hr : (ArgParser.argPagesPositional q none).exec s with ⟨r, s2⟩
    rw [hr] at hend
    cases r with
    | error e => simp at hend
    | ok u =>
      simp only at hend
      by_cases hs2 : s2.o.page_specs = []
      · simp [hs2] at hend
      · simp only [hs2, if_false, Prod.mk.injEq, true_and] at hend
        rw [← hend]
        exact hs2
  have h2 : (runHandlers q later s1).o.page_specs ≠ [] := by
    obtain ⟨added, ha⟩ := ArgParser.page_specs_runHandlers q later s1
    rw [ha]
    intro hnil
    exact h1 (List.append_eq_nil.mp hnil).1
  refine ⟨h1, h2, ?_, ArgParser.pexec_argPages, ?_, ?_⟩
  · rw [ArgParser.pexec_argPages, if_neg h2]
  · intro t t1 ht hnil
    rw [ArgParser.pexec_argEndPages, ht]
    simp [hnil]
  · intro t hnil hacc
    rw [ArgParser.pexec_argEndPages, ArgParser.pexec_argPagesPositional_empty_end q t hacc]
    simp [hnil]

/-- Witness of C14: the block `--pages a.pdf --` ends well, and after a later
`--decode-level=all` a second `--pages` throws. -/
theorem pages_only_once_witness :
    (ArgParser.argEndPages exampleQUtil).exec
        { exampleParser with accumulated_args := ["a.pdf"] } =
      (.ok (), { exampleParser with
        o := { exampleParser.o with page_specs := [⟨"a.pdf", none, "1-z"⟩] },
        accumulated_args := [], pages_password := none }) ∧
    ArgParser.argPages.exec
        (runHandlers exampleQUtil [.argDecodeLevel "all"]
          { exampleParser with
            o := { exampleParser.o with page_specs := [⟨"a.pdf", none, "1-z"⟩] },
            accumulated_args := [], pages_password := none }) =
      (.error (.Usage "the --pages may only be specified one time"),
        runHandlers exampleQUtil [.argDecodeLevel "all"]
          { exampleParser with
            o := { exampleParser.o with page_specs := [⟨"a.pdf", none, "1-z"⟩] },
            accumulated_args := [], pages_password := none }) :=
  ⟨ArgParser.pexec_argEndPages_example,
    (pages_only_once exampleQUtil { exampleParser with accumulated_args := ["a.pdf"] } _
      [.argDecodeLevel "all"] ArgParser.pexec_argEndPages_example).2.2.1⟩

namespace ArgParser

/-- One argument inside `--pages`, handled without a throw, keeps the invariant;
and when it records a page spec, no password is pending afterwards. -/
theorem pagesInvariant_step (q : QUtil) (a : PagesArg) (s s1 : ArgParser)
    (hinv : pagesInvariant s) (h : (a.run q).exec s = (.ok (), s1)) :
    pagesInvariant s1 ∧ (s1.o.page_specs ≠ s.o.page_specs → s1.pages_password = none) := by
  obtain ⟨hlen, hpw⟩ := hinv
  cases a with
  | password parameter =>
    simp only [PagesArg.run, pexec_argPagesPassword] at h
    by_cases h1 : s.pages_password.isSome = true
    · simp [h1] at h
    · by_cases h2 : s.accumulated_args.length = 1
      · rw [if_neg h1, if_neg (not_not.mpr h2)] at h
        simp only [Prod.mk.injEq, true_and] at h
        subst h
        exact ⟨⟨hlen, fun _ => h2⟩, fun hne => absurd rfl hne⟩
      · simp [h1, h2] at h
  | positional arg =>
    simp only [PagesArg.run] at h
    cases hacc : s.accumulated_args with
    | nil =>
      rw [pexec_argPagesPositional_first q s arg hacc] at h
      simp only [Prod.mk.injEq, true_and] at h
      subst h
      have hnone : s.pages_password.isSome = false := by
        cases hp : s.pages_password.isSome with
        | false => rfl
        | true => have := hpw hp; rw [hacc] at this; simp at this
      refine ⟨⟨by simp, fun _ => by simp⟩, fun hne => absurd rfl hne⟩
    | cons file rest =>
      have hrest : rest = [] := by
        rw [hacc] at hlen
        cases rest with
        | nil => rfl
        | cons y ys => simp at hlen
      subst hrest
      cases hp : q.parse_numrange arg 0 with
      | ok pages =>
        rw [pexec_argPagesPositional_range q s file arg pages hacc hp] at h
        simp only [Prod.mk.injEq, true_and] at h
        subst h
        exact ⟨⟨by simp, fun hsome => by simp at hsome⟩, fun _ => rfl⟩
      | error what =>
        by_cases hfile : arg = "." ∨ q.file_can_be_opened arg = true
        · rw [pexec_argPagesPositional_next_file q s file arg what hacc hp hfile] at h
          simp only [Prod.mk.injEq, true_and] at h
          subst h
          exact ⟨⟨by simp, fun hsome => by simp at hsome⟩, fun _ => rfl⟩
        · have hdot : arg ≠ "." := fun e => hfile (Or.inl e)
          have hopen : q.file_can_be_opened arg = false := by
            cases ho : q.file_can_be_opened arg with
            | false => rfl
            | true => exact absurd (Or.inr ho) hfile
          rw [pexec_argPagesPositional_bad q s file arg what hacc hp hdot hopen] at h
          simp at h

theorem pagesInvariant_runPagesArgs (q : QUtil) (args : List PagesArg) :
    ∀ s s1 : ArgParser, pagesInvariant s → (runPagesArgs q args).exec s = (.ok (), s1) →
      pagesInvariant s1 := by
  induction args with
  | nil =>
    intro s s1 hinv h
    simp only [runPagesArgs, pexec_pure, Prod.mk.injEq, true_and] at h
    subst h
    exact hinv
  | cons a rest ih =>
    intro s s1 hinv h
    simp only [runPagesArgs, pexec_bind] at h
    rcases hr : (a.run q).exec s with ⟨r, s2⟩
    rw [hr] at h
    cases r with
    | error e => simp at h
    | ok u => exact ih s2 s1 (pagesInvariant_step q a s s2 hinv hr).1 h

/-- The call with a null argument, as `argEndPages` makes it, on a parser that
satisfies the invariant: it returns, nothing stays accumulated and no password
stays pending. -/
theorem pagesInvariant_end (q : QUtil) (s : ArgParser) (hinv : pagesInvariant s) :
    ∃ s1, (argPagesPositional q none).exec s = (.ok (), s1) ∧ s1.accumulated_args = [] ∧
      s1.pages_password = none := by
  obtain ⟨hlen, hpw⟩ := hinv
  cases hacc : s.accumulated_args with
  | nil =>
    refine ⟨s, pexec_argPagesPositional_empty_end q s hacc, hacc, ?_⟩
    cases hp : s.pages_password with
    | none => rfl
    | some p =>
      have := hpw (by simp [hp])
      rw [hacc] at this
      simp at this
  | cons file rest =>
    have hrest : rest = [] := by
      rw [hacc] at hlen
      cases rest with
      | nil => rfl
      | cons y ys => simp at hlen
    subst hrest
    exact ⟨_, pexec_argPagesPositional_end q s file hacc, rfl, rfl⟩

end ArgParser

/-- C18: start from `argPages` on a parser with no password pending and handle
any arguments of the block without a throw.  Then at most one argument, the
pending file name, is accumulated; `argPagesPassword` returns exactly when one
file name is pending and no password is; without a pending file name it throws
"in --pages, --password must immediately follow a file name", which is the case
right after `argPages` and after a range; with a password pending it throws
"--password already specified for this file", which is the case for a second
password; a positional argument that records a page spec leaves no password
pending and at most one argument accumulated; and the call with a null
argument, which `argEndPages` makes, leaves nothing accumulated and no password
pending. -/
theorem pages_password_follows_file (q : QUtil) (s s1 : ArgParser) (args : List PagesArg)
    (parameter : String) (hpw : s.pages_password = none)
    (hrun : (do ArgParser.argPages
                runPagesArgs q args : P Unit).exec s = (.ok (), s1)) :
    s1.accumulated_args.length ≤ 1 ∧
    (((ArgParser.argPagesPassword parameter).exec s1).1 = .ok () ↔
      (∃ file, s1.accumulated_args = [file]) ∧ s1.pages_password = none) ∧
    (s1.accumulated_args = [] →
      (ArgParser.argPagesPassword parameter).exec s1 =
        (.error (.Usage "in --pages, --password must immediately follow a file name"), s1)) ∧
    (s1.pages_password.isSome = true →
      (ArgParser.argPagesPassword parameter).exec s1 =
        (.error (.Usage "--password already specified for this file"), s1)) ∧
    ((do ArgParser.argPages
         ArgParser.argPagesPassword parameter : P Unit).exec s).1 =
      .error (.Usage "in --pages, --password must immediately follow a file name") ∧
    (∀ (x : String) (s2 : ArgParser),
      (ArgParser.argPagesPositional q (some x)).exec s1 = (.ok (), s2) →
      s2.accumulated_args.length ≤ 1 ∧
      (s2.o.page_specs ≠ s1.o.page_specs → s2.pages_password = none)) ∧
    (∃ s2, (ArgParser.argPagesPositional q none).exec s1 = (.ok (), s2) ∧
      s2.accumulated_args = [] ∧ s2.pages_password = none) ∧
    (∀ (file r : String) (pages : List Int), s1.accumulated_args = [file] →
      q.parse_numrange r 0 = .ok pages →
      ((do ArgParser.argPagesPositional q (some r)
           ArgParser.argPagesPassword parameter : P Unit).exec s1).1 =
        .error (.Usage "in --pages, --password must immediately follow a file name")) ∧
    (∀ first : String, ((ArgParser.argPagesPassword first).exec s1).1 = .ok () →
      ((do ArgParser.argPagesPassword first
           ArgParser.argPagesPassword parameter : P Unit).exec s1).1 =
        .error (.Usage "--password already specified for this file")) := by
  have hspecs : s.o.page_specs = [] := by
    by_contra hne
    rw [ArgParser.pexec_bind, ArgParser.pexec_argPages, if_neg hne] at hrun
    simp at hrun
  rw [ArgParser.pexec_bind, ArgParser.pexec_argPages, if_pos hspecs] at hrun
  simp only at hrun
  have hinv0 : pagesInvariant
      { s with accumulated_args := [], ap := { s.ap with option_table := .O_PAGES } } :=
    ⟨by simp, fun h => by simp [hpw] at h⟩
  have hinv := ArgParser.pagesInvariant_runPagesArgs q args _ s1 hinv0 hrun
  obtain ⟨hlen, hpend⟩ := hinv
  refine ⟨hlen, ?_, ?_, ?_, ?_, ?_, ArgParser.pagesInvariant_end q s1 ⟨hlen, hpend⟩, ?_, ?_⟩
  · rw [ArgParser.pexec_argPagesPassword]
    constructor
    · intro hok
      by_cases h1 : s1.pages_password.isSome = true
      · simp [h1] at hok
      · by_cases h2 : s1.accumulated_args.length = 1
        · refine ⟨List.length_eq_one.mp h2, ?_⟩
          cases hp : s1.pages_password with
          | none => rfl
          | some p => simp [hp] at h1
        · simp [h1, h2] at hok
    · rintro ⟨⟨file, hfile⟩, hnone⟩
      simp [hfile, hnone]
  · intro hnil
    have hnone : s1.pages_password.isSome = false := by
      cases hp : s1.pages_password.isSome with
      | false => rfl
      | true => have := hpend hp; rw [hnil] at this; simp at this
    rw [ArgParser.pexec_argPagesPassword]
    simp [hnil, hnone]
  · intro hsome
    rw [ArgParser.pexec_argPagesPassword]
    simp [hsome]
  · rw [ArgParser.pexec_bind, ArgParser.pexec_argPages, if_pos hspecs]
    simp only
    rw [ArgParser.pexec_argPagesPassword]
    simp [hpw]
  · intro x s2 hx
    have hstep := ArgParser.pagesInvariant_step q (.positional x) s1 s2 ⟨hlen, hpend⟩ hx
    exact ⟨hstep.1.1, hstep.2⟩
  · intro file r pages hfile hr
    rw [ArgParser.pexec_bind, ArgParser.pexec_argPagesPositional_range q s1 file r pages hfile hr]
    simp only
    rw [ArgParser.pexec_argPagesPassword]
    simp
  · intro first hfirst
    rw [ArgParser.pexec_argPagesPassword] at hfirst
    rw [ArgParser.pexec_bind, ArgParser.pexec_argPagesPassword]
    by_cases h1 : s1.pages_password.isSome = true
    · simp [h1] at hfirst
    · by_cases h2 : s1.accumulated_args.length = 1
      · rw [if_neg h1, if_neg (not_not.mpr h2)]
        simp only
        rw [ArgParser.pexec_argPagesPassword]
        simp
      · simp [h1, h2] at hfirst

namespace ArgParser

theorem pexec_pages_example :
    (do argPages
        runPagesArgs exampleQUtil [.positional "a.pdf", .password "x", .positional "b.pdf"] :
          P Unit).exec exampleParser =
      (.ok (), { exampleParser with
        o := { exampleParser.o with page_specs := [⟨"a.pdf", some "x", "1-z"⟩] },
        accumulated_args := ["b.pdf"],
        ap := { exampleParser.ap with option_table := .O_PAGES } }) := by
  rfl

end ArgParser

/-- Witness of C18: `--pages a.pdf --password=x b.pdf` leaves `b.pdf` pending
with no password, so a password is accepted next. -/
theorem pages_password_follows_file_witness :
    exampleParser.pages_password = none ∧
    (do ArgParser.argPages
        runPagesArgs exampleQUtil [.positional "a.pdf", .password "x", .positional "b.pdf"] :
          P Unit).exec exampleParser =
      (.ok (), { exampleParser with
        o := { exampleParser.o with page_specs := [⟨"a.pdf", some "x", "1-z"⟩] },
        accumulated_args := ["b.pdf"],
        ap := { exampleParser.ap with option_table := .O_PAGES } }) ∧
    ({ exampleParser with
        o := { exampleParser.o with page_specs := [⟨"a.pdf", some "x", "1-z"⟩] },
        accumulated_args := ["b.pdf"],
        ap := { exampleParser.ap with option_table := .O_PAGES } } :
          ArgParser).accumulated_args.length ≤ 1 :=
  ⟨rfl, ArgParser.pexec_pages_example,
    (pages_password_follows_file exampleQUtil exampleParser _
      [.positional "a.pdf", .password "x", .positional "b.pdf"] "y" rfl
      ArgParser.pexec_pages_example).1⟩

namespace qpdf

open qpdf_object_type_e

/-! ## Narrowing without the error flag, and views over Null -/

/-- Every accessor of the stream view starts with `stream()`, so on a view whose
object does not resolve to a stream it throws what `stream()` throws. -/
theorem exec_accessors_of_stream_fail {σ : Heap} {this : Stream} {e : Failure}
    (hfail : this.stream.exec σ = (.error e, σ)) :
    this.getDict.exec σ = (.error e, σ) ∧
    this.isDataModified.exec σ = (.error e, σ) ∧
    this.getFilterOnWrite.exec σ = (.error e, σ) ∧
    this.getLength.exec σ = (.error e, σ) := by
  refine ⟨?_, ?_, ?_, ?_⟩ <;>
    simp [Stream.getDict, Stream.isDataModified, Stream.getFilterOnWrite, Stream.getLength,
      exec_bind, exec_map, hfail]

/-- A handle of kind Null holds an object, and that object does not resolve to a stream. -/
theorem not_stream_of_null {σ : Heap} {this : BaseHandle} (hnull : kindOf σ this = ot_null) :
    ∀ p, this.obj = some p → ∀ st, (σ (resolved σ p)).value ≠ .stream st := by
  intro p hobj st hval
  simp [kindOf, hobj, hval, Value.getTypeCode] at hnull

/-- C16: without the error flag `as_array`, `as_dictionary` and `as_stream`
return for every handle and leave the store alone; and when the any flag is
absent, the kind is not the requested one, and it is not the case that optional
is set and the kind is Null, the view returned holds no object. -/
theorem narrowing_without_error_returns (σ : Heap) (this : QPDFObjectHandle) (options : typed)
    (k : qpdf_object_type_e) (herr : options.has error = false)
    (hk : (type_code this).exec σ = (.ok k, σ)) :
    (∃ v, (as_array this options).exec σ = (.ok v, σ)) ∧
    (∃ v, (as_dictionary this options).exec σ = (.ok v, σ)) ∧
    (∃ v, (as_stream this options).exec σ = (.ok v, σ)) ∧
    (options.has any_flag = false → ¬ (options.has optional = true ∧ k = ot_null) →
      (k ≠ ot_array → (as_array this options).exec σ = (.ok ⟨none⟩, σ)) ∧
      (k ≠ ot_dictionary → (as_dictionary this options).exec σ = (.ok ⟨none⟩, σ)) ∧
      (k ≠ ot_stream → (as_stream this options).exec σ = (.ok ⟨none⟩, σ))) := by
  rw [exec_type_code] at hk
  have hk1 : kindOf σ this = k := by injection (congrArg Prod.fst hk)
  subst hk1
  refine ⟨?_, ?_, ?_, ?_⟩
  · rw [exec_as_array]
    simp only [herr, Bool.false_eq_true, if_false]
    split_ifs <;> exact ⟨_, rfl⟩
  · rw [exec_as_dictionary]
    simp only [herr, Bool.false_eq_true, if_false]
    split_ifs <;> exact ⟨_, rfl⟩
  · rw [exec_as_stream]
    simp only [herr, Bool.false_eq_true, if_false]
    split_ifs <;> exact ⟨_, rfl⟩
  · intro hany hopt
    have hcond : (options.has optional && kindOf σ this == ot_null) = false := by
      cases ho : options.has optional
      · simp
      · simp only [Bool.true_and, beq_eq_false_iff_ne, ne_eq]
        exact fun hn => hopt ⟨ho, hn⟩
    refine ⟨fun hne => ?_, fun hne => ?_, fun hne => ?_⟩
    · rw [exec_as_array]; simp [herr, hany, hcond, hne]
    · rw [exec_as_dictionary]; simp [herr, hany, hcond, hne]
    · rw [exec_as_stream]; simp [herr, hany, hcond, hne]

/-- Witness of C16: the dictionary at key 1 narrowed with the optional flag alone. -/
theorem narrowing_without_error_returns_witness :
    typed.has optional error = false ∧
    (type_code ⟨some 1⟩).exec exampleHeap = (.ok ot_dictionary, exampleHeap) ∧
    (as_array ⟨some 1⟩ optional).exec exampleHeap = (.ok ⟨none⟩, exampleHeap) ∧
    (as_stream ⟨some 1⟩ optional).exec exampleHeap = (.ok ⟨none⟩, exampleHeap) :=
  ⟨by decide, rfl,
    ((narrowing_without_error_returns exampleHeap ⟨some 1⟩ optional ot_dictionary (by decide)
      rfl).2.2.2 (by decide) (by decide)).1 (by decide),
    ((narrowing_without_error_returns exampleHeap ⟨some 1⟩ optional ot_dictionary (by decide)
      rfl).2.2.2 (by decide) (by decide)).2.2 (by decide)⟩

/-- C17 fails as stated: key 7 of the example store holds Null; `as_stream` with
the optional flag returns the view over it, and `isDataModified` on that view
throws instead of returning false, as do `getDict`, `getFilterOnWrite` and
`getLength`. -/
theorem optional_stream_view_of_null_throws :
    (type_code ⟨some 7⟩).exec exampleHeap = (.ok ot_null, exampleHeap) ∧
    (as_stream ⟨some 7⟩ optional).exec exampleHeap = (.ok ⟨some 7⟩, exampleHeap) ∧
    (Stream.mk (some 7)).isDataModified.exec exampleHeap ≠ (.ok false, exampleHeap) ∧
    (Stream.mk (some 7)).isDataModified.exec exampleHeap =
      (.error (.runtime_error "operation for stream attempted on object of type dictionary"),
        exampleHeap) ∧
    (Stream.mk (some 7)).getDict.exec exampleHeap =
      (.error (.runtime_error "operation for stream attempted on object of type dictionary"),
        exampleHeap) ∧
    (Stream.mk (some 7)).getFilterOnWrite.exec exampleHeap =
      (.error (.runtime_error "operation for stream attempted on object of type dictionary"),
        exampleHeap) ∧
    (Stream.mk (some 7)).getLength.exec exampleHeap =
      (.error (.runtime_error "operation for stream attempted on object of type dictionary"),
        exampleHeap) := by
  refine ⟨rfl, rfl, ?_, rfl, rfl, rfl, rfl⟩
  intro h
  have h1 : ((Stream.mk (some 7)).isDataModified.exec exampleHeap).1 =
      .error (.runtime_error "operation for stream attempted on object of type dictionary") :=
    rfl
  rw [h] at h1
  exact absurd h1 (by simp)

/-- C17 as amended: for a handle of kind Null and an option set with the optional
flag, `as_stream` returns the view over the handle's object and leaves the
store alone; on that view `getDict`, `isDataModified`, `getFilterOnWrite` and
`getLength` each throw the runtime error of `Stream::stream`, and leave the
store alone. -/
theorem optional_stream_view_of_null (σ : Heap) (this : QPDFObjectHandle) (options : typed)
    (hopt : options.has optional = true)
    (hnull : (type_code this).exec σ = (.ok ot_null, σ)) :
    (as_stream this options).exec σ = (.ok ⟨this.obj⟩, σ) ∧
    (Stream.mk this.obj).getDict.exec σ =
      (.error (.runtime_error "operation for stream attempted on object of type dictionary"), σ) ∧
    (Stream.mk this.obj).isDataModified.exec σ =
      (.error (.runtime_error "operation for stream attempted on object of type dictionary"), σ) ∧
    (Stream.mk this.obj).getFilterOnWrite.exec σ =
      (.error (.runtime_error "operation for stream attempted on object of type dictionary"), σ) ∧
    (Stream.mk this.obj).getLength.exec σ =
      (.error (.runtime_error "operation for stream attempted on object of type dictionary"),
        σ) := by
  rw [exec_type_code] at hnull
  have hk : kindOf σ this = ot_null := by injection (congrArg Prod.fst hnull)
  have hfail : (Stream.mk this.obj).stream.exec σ =
      (.error (.runtime_error "operation for stream attempted on object of type dictionary"),
        σ) :=
    exec_stream_fail (fun p hobj => not_stream_of_null hk p hobj)
  exact ⟨(as_dictionary_as_stream_optional_null σ this options hopt hk).2,
    exec_accessors_of_stream_fail hfail⟩

/-- Witness of the amended C17 on the Null object at key 7, with optional and
error both set. -/
theorem optional_stream_view_of_null_witness :
    typed.has (optional ||| error) optional = true ∧
    (type_code ⟨some 7⟩).exec exampleHeap = (.ok ot_null, exampleHeap) ∧
    (as_stream ⟨some 7⟩ (optional ||| error)).exec exampleHeap =
      (.ok ⟨some 7⟩, exampleHeap) ∧
    (Stream.mk (some 7)).getLength.exec exampleHeap =
      (.error (.runtime_error "operation for stream attempted on object of type dictionary"),
        exampleHeap) :=
  ⟨by decide, rfl,
    (optional_stream_view_of_null exampleHeap ⟨some 7⟩ (optional ||| error) (by decide) rfl).1,
    (optional_stream_view_of_null exampleHeap ⟨some 7⟩ (optional ||| error) (by decide)
      rfl).2.2.2.2⟩

end qpdf
